import Mathlib

/-!
Verification of the prompt-library CRUD service (`PromptService`) and its
file-backed persistence adapter (`FileStorage`).

The TypeScript source is shallowly embedded:
* JavaScript strings are Lean `String`s; `toLowerCase`, `includes`,
  `split('.')`, `parseInt(·, 10)`, default `Array.sort` comparison,
  `startsWith`/`endsWith` and the regex replace `/[:.]/g → '-'` are modelled
  by structurally recursive functions on `List Char` below (ASCII data).
* `Record<string, Prompt>` objects are association lists (`List (String × Prompt)`),
  which for non-integer-like keys is exactly JavaScript's insertion-ordered
  enumeration; `Object.values`, indexing, assignment and `delete` are modelled
  on that representation.
* `Array.prototype.sort` (stable since ES2019) is modelled by a stable
  insertion sort `isort` with the comparator translated to a boolean `le`.
* `randomUUID()` and `new Date().toISOString()` are nondeterministic inputs,
  passed as explicit parameters.
* The storage adapter is modelled at two levels: the `PromptService` sees an
  abstract provider recording the last mapping it was asked to save
  (`ServiceState.persisted`), and `FileStorage` itself is modelled over a
  small file-system state holding the parsed YAML document and the backup
  directory listing, with YAML values as an inductive `YamlValue`.
-/

namespace PromptLib

/-! ## JavaScript string primitives -/

/-- `s.toLowerCase()` as a list of characters (ASCII lowering, as `Char.toLower`). -/
def lcList (s : String) : List Char := s.data.map Char.toLower

/-- Does `pat` match at the head of `s`? (helper for `subMatch`). -/
def headMatch : List Char → List Char → Bool
  | [], _ => true
  | _ :: _, [] => false
  | a :: as, b :: bs => a == b && headMatch as bs

/-- `s.includes(pat)` on character lists: `pat` occurs contiguously in `s`. -/
def subMatch (pat : List Char) : List Char → Bool
  | [] => pat.isEmpty
  | b :: bs => headMatch pat (b :: bs) || subMatch pat bs

/-- `s.toLowerCase().includes(pat.toLowerCase())`, the case-insensitive
substring test used throughout `PromptService`. -/
def includesCI (s pat : String) : Bool := subMatch (lcList pat) (lcList s)

/-- Lexicographic `≤` on character lists (JavaScript string comparison). -/
def charListLe : List Char → List Char → Bool
  | [], _ => true
  | _ :: _, [] => false
  | a :: as, b :: bs => if a < b then true else if b < a then false else charListLe as bs

/-- Lexicographic `<` on character lists. -/
def charListLt : List Char → List Char → Bool
  | [], [] => false
  | [], _ :: _ => true
  | _ :: _, [] => false
  | a :: as, b :: bs => if a < b then true else if b < a then false else charListLt as bs

/-- JavaScript default string ordering (`a <= b` by code units). -/
def strLeB (a b : String) : Bool := charListLe a.data b.data

/-- JavaScript strict string ordering (`a < b` by code units). -/
def strLtB (a b : String) : Bool := charListLt a.data b.data

/-- `s.split(sep)` for a one-character separator, on character lists. -/
def splitOnChar (sep : Char) : List Char → List (List Char)
  | [] => [[]]
  | c :: cs =>
    let r := splitOnChar sep cs
    if c = sep then [] :: r
    else
      match r with
      | [] => [[c]]
      | h :: t => (c :: h) :: t

/-- `version.split('.')` as Lean strings. -/
def jsSplitDot (s : String) : List String := (splitOnChar '.' s.data).map List.asString

/-- Digit run accumulation for `parseInt`. -/
def digitsVal : List Char → Nat → Nat
  | [], acc => acc
  | c :: cs, acc => digitsVal cs (10 * acc + (c.toNat - 48))

/-- `parseInt(s, 10)`: skip whitespace, optional sign, parse the leading digit
run; `none` models `NaN` (no digits found). -/
def jsParseInt10 (s : String) : Option Int :=
  let cs := s.data.dropWhile Char.isWhitespace
  let (sign, cs') :=
    match cs with
    | '-' :: rest => ((-1 : Int), rest)
    | '+' :: rest => ((1 : Int), rest)
    | _ => ((1 : Int), cs)
  let ds := cs'.takeWhile Char.isDigit
  if ds.isEmpty then none else some (sign * (digitsVal ds 0 : Int))

/-- Rendering of a JavaScript number (or `NaN`) into a template literal. -/
def jsNumToString : Option Int → String
  | none => "NaN"
  | some n => toString n

/-! ## Stable sort (JavaScript `Array.prototype.sort`, stable since ES2019) -/

/-- Insert `a` into `l`, before the first element `b` with `le a b`
(stable insertion). -/
def insertLe (le : α → α → Bool) (a : α) : List α → List α
  | [] => [a]
  | b :: bs => if le a b then a :: b :: bs else b :: insertLe le a bs

/-- Stable insertion sort; for a consistent comparator it produces the same
output as JavaScript's stable `Array.prototype.sort`. -/
def isort (le : α → α → Bool) : List α → List α
  | [] => []
  | a :: as => insertLe le a (isort le as)

/-! ## Data model (`src/types/index.ts`) -/

/-- `type` of a `PromptVariable`: `'string' | 'number' | 'boolean' | 'array'`. -/
inductive VarType where
  | string | number | boolean | array
deriving DecidableEq, Repr

/-- `defaultValue?: string | number | boolean | string[]`. -/
inductive DefaultValue where
  | str (s : String)
  | num (n : Int)
  | bool (b : Bool)
  | arr (xs : List String)
deriving DecidableEq, Repr

/-- `PromptVariable`. -/
structure PromptVariable where
  name : String
  description : String
  type : VarType
  required : Bool
  defaultValue : Option DefaultValue
deriving DecidableEq, Repr

/-- `PromptMetadata` (`author` and `usage` are optional in the interface). -/
structure PromptMetadata where
  createdAt : String
  updatedAt : String
  version : String
  author : Option String
  usage : Option Nat
deriving DecidableEq, Repr

/-- `Prompt` (`description` and `variables` are optional in the interface). -/
structure Prompt where
  id : String
  title : String
  content : String
  description : Option String
  tags : List String
  category : String
  «variables» : Option (List PromptVariable)
  metadata : PromptMetadata
deriving DecidableEq, Repr

/-- `CreatePromptRequest`. -/
structure CreatePromptRequest where
  title : String
  content : String
  description : Option String
  tags : List String
  category : String
  «variables» : Option (List PromptVariable)
  author : Option String
deriving DecidableEq, Repr

/-- `UpdatePromptRequest` (every field optional). -/
structure UpdatePromptRequest where
  title : Option String
  content : Option String
  description : Option String
  tags : Option (List String)
  category : Option String
  «variables» : Option (List PromptVariable)
deriving DecidableEq, Repr

/-- `SearchFilters`. -/
structure SearchFilters where
  tags : Option (List String)
  category : Option String
  title : Option String
  limit : Option Nat
  offset : Option Nat
deriving DecidableEq, Repr

/-- `PaginatedResponse<Prompt>`. -/
structure PaginatedResponse where
  items : List Prompt
  total : Nat
  limit : Nat
  offset : Nat
deriving DecidableEq, Repr

/-! ## The in-memory mapping (`Record<string, Prompt>`) -/

/-- The `Record<string, Prompt>` object, as an insertion-ordered association list. -/
abbrev Store := List (String × Prompt)

/-- `this.prompts[id]` (property access; `undefined` is `none`). -/
def findP (ps : Store) (id : String) : Option Prompt :=
  (ps.find? (fun kv => kv.1 == id)).map (fun kv => kv.2)

/-- `this.prompts[id] = p`: overwrite in place if the key exists, else append. -/
def setP (ps : Store) (id : String) (p : Prompt) : Store :=
  if ps.any (fun kv => kv.1 == id) then
    ps.map (fun kv => if kv.1 == id then (id, p) else kv)
  else ps ++ [(id, p)]

/-- `Object.values(this.prompts)` (insertion order for UUID keys). -/
def storeValues (ps : Store) : List Prompt := ps.map (fun kv => kv.2)

/-- Service state: the in-memory mapping plus the last mapping handed to
`storage.save` (the storage adapter is modelled as recording its argument). -/
structure ServiceState where
  prompts : Store
  persisted : Store
deriving DecidableEq, Repr

/-! ## `PromptService` operations (`src/services/PromptService.ts`) -/

/-- Accumulator loop for `jsSetDedup`: keep the elements not yet `seen`. -/
def jsSetDedupAux (seen : List String) : List String → List String
  | [] => []
  | t :: ts =>
    if seen.contains t then jsSetDedupAux seen ts
    else t :: jsSetDedupAux (t :: seen) ts

/-- `[...new Set(request.tags)]`: remove duplicates, keeping the first
occurrence of each value in order. -/
def jsSetDedup (l : List String) : List String := jsSetDedupAux [] l

/-- `createPrompt`; `id` models the `randomUUID()` result and `now` the
`new Date().toISOString()` result. -/
def createPrompt (st : ServiceState) (request : CreatePromptRequest) (id now : String) :
    Prompt × ServiceState :=
  let prompt : Prompt :=
    { id := id
      title := request.title
      content := request.content
      description := request.description
      tags := jsSetDedup request.tags
      category := request.category
      «variables» := some («request».«variables».getD [])
      metadata :=
        { createdAt := now
          updatedAt := now
          version := "1.0.0"
          author := request.author.filter (fun a => a ≠ "")
          usage := some 0 } }
  let prompts' := setP st.prompts id prompt
  (prompt, { prompts := prompts', persisted := prompts' })

/-- `getPrompt`: bump `usage` (`(usage || 0) + 1`), save, return the mutated
record; `null` when absent. -/
def getPrompt (st : ServiceState) (id : String) : Option Prompt × ServiceState :=
  match findP st.prompts id with
  | none => (none, st)
  | some p =>
    let p' : Prompt :=
      { p with metadata := { p.metadata with usage := some (p.metadata.usage.getD 0 + 1) } }
    let prompts' := setP st.prompts id p'
    (some p', { prompts := prompts', persisted := prompts' })

/-- `incrementVersion`: split on `'.'`, `parseInt(parts[2] || '0', 10) + 1`,
re-join with the original first two parts. -/
def incrementVersion (version : String) : String :=
  let parts := jsSplitDot version
  let part2 := parts.getD 2 ""
  let patch := (jsParseInt10 (if part2 = "" then "0" else part2)).map (fun n => n + 1)
  parts.getD 0 "undefined" ++ "." ++ parts.getD 1 "undefined" ++ "." ++ jsNumToString patch

/-- `updatePrompt`: overwrite exactly the fields present in the request
(`??` for `title`/`content`/`category`, an `!== undefined` guard for
`description`/`variables`, truthiness plus dedup for `tags`), refresh
`updatedAt`, bump the patch version, save. -/
def updatePrompt (st : ServiceState) (id : String) (request : UpdatePromptRequest)
    (now : String) : Option Prompt × ServiceState :=
  match findP st.prompts id with
  | none => (none, st)
  | some existingPrompt =>
    let updatedPrompt : Prompt :=
      { id := existingPrompt.id
        title := request.title.getD existingPrompt.title
        content := request.content.getD existingPrompt.content
        description :=
          match request.description with
          | some d => some d
          | none => existingPrompt.description
        tags :=
          match request.tags with
          | some t => jsSetDedup t
          | none => existingPrompt.tags
        category := request.category.getD existingPrompt.category
        «variables» :=
          match request.«variables» with
          | some v => some v
          | none => existingPrompt.«variables»
        metadata :=
          { existingPrompt.metadata with
            updatedAt := now
            version := incrementVersion existingPrompt.metadata.version } }
    let prompts' := setP st.prompts id updatedPrompt
    (some updatedPrompt, { prompts := prompts', persisted := prompts' })

/-- `deletePrompt`. -/
def deletePrompt (st : ServiceState) (id : String) : Bool × ServiceState :=
  match findP st.prompts id with
  | none => (false, st)
  | some _ =>
    let prompts' := st.prompts.filter (fun kv => kv.1 ≠ id)
    (true, { prompts := prompts', persisted := prompts' })

/-- `filters.limit || 50` / `filters.offset || 0` (`0` is falsy). -/
def jsOrNat (x : Option Nat) (d : Nat) : Nat :=
  match x with
  | some n => if n = 0 then d else n
  | none => d

/-- The `filters.category` pass of `listPrompts` (skipped when falsy). -/
def matchCategory (filters : SearchFilters) (p : Prompt) : Bool :=
  match filters.category with
  | none => true
  | some c => if c = "" then true else includesCI p.category c

/-- The `filters.tags` pass: ANY requested tag is a case-insensitive substring
of ANY of the record's tags. -/
def matchTags (filters : SearchFilters) (p : Prompt) : Bool :=
  match filters.tags with
  | none => true
  | some ts =>
    if ts.isEmpty then true
    else ts.any (fun tag => p.tags.any (fun pTag => includesCI pTag tag))

/-- The `filters.title` pass: the filter is a substring of the title, or of a
truthy description. -/
def matchTitle (filters : SearchFilters) (p : Prompt) : Bool :=
  match filters.title with
  | none => true
  | some t =>
    if t = "" then true
    else
      includesCI p.title t ||
        (match p.description with
         | some d => if d = "" then false else includesCI d t
         | none => false)

/-- The sort key of `listPrompts`: `(usage || 0, new Date(updatedAt).getTime())`;
`getTime` abstracts JavaScript date parsing. -/
def listKey (getTime : String → Int) (p : Prompt) : Int × Int :=
  ((p.metadata.usage.getD 0 : Int), getTime p.metadata.updatedAt)

/-- `listPrompts`'s comparator as a boolean `≤`: usage descending, ties by
`updatedAt` descending. -/
def listLE (getTime : String → Int) (a b : Prompt) : Bool :=
  let ka := listKey getTime a
  let kb := listKey getTime b
  kb.1 < ka.1 || (kb.1 == ka.1 && kb.2 ≤ ka.2)

/-- `listPrompts`. -/
def listPrompts (getTime : String → Int) (st : ServiceState) (filters : SearchFilters) :
    PaginatedResponse :=
  let filteredPrompts :=
    (((storeValues st.prompts).filter (matchCategory filters)).filter
        (matchTags filters)).filter (matchTitle filters)
  let sorted := isort (listLE getTime) filteredPrompts
  let total := sorted.length
  let limit := jsOrNat filters.limit 50
  let offset := jsOrNat filters.offset 0
  { items := (sorted.drop offset).take limit, total := total, limit := limit, offset := offset }

/-- The free-text match of `searchPrompts`: the query occurs case-insensitively
in the title, a truthy description, the content, any tag, or the category. -/
def queryMatches (q : String) (p : Prompt) : Bool :=
  includesCI p.title q ||
    (match p.description with
     | some d => if d = "" then false else includesCI d q
     | none => false) ||
    includesCI p.content q ||
    p.tags.any (fun tag => includesCI tag q) ||
    includesCI p.category q

/-- `calculateRelevanceScore`. -/
def calculateRelevanceScore (p : Prompt) (q : String) : Nat :=
  (if includesCI p.title q then 10 else 0) +
    (if p.tags.any (fun tag => includesCI tag q) then 5 else 0) +
    (if includesCI p.category q then 3 else 0) +
    (if (match p.description with
         | some d => if d = "" then false else includesCI d q
         | none => false) then 2 else 0) +
    (if includesCI p.content q then 1 else 0)

/-- `searchPrompts`'s comparator as a boolean `≤`: score descending, ties by
usage descending. -/
def searchLE (q : String) (a b : Prompt) : Bool :=
  let sa := calculateRelevanceScore a q
  let sb := calculateRelevanceScore b q
  sb < sa || (sb == sa && b.metadata.usage.getD 0 ≤ a.metadata.usage.getD 0)

/-- `searchPrompts`. -/
def searchPrompts (st : ServiceState) (q : String) (filters : SearchFilters) :
    PaginatedResponse :=
  let filteredPrompts := (storeValues st.prompts).filter (queryMatches q)
  let filteredPrompts :=
    (filteredPrompts.filter (matchCategory filters)).filter (matchTags filters)
  let sorted := isort (searchLE q) filteredPrompts
  let total := sorted.length
  let limit := jsOrNat filters.limit 50
  let offset := jsOrNat filters.offset 0
  { items := (sorted.drop offset).take limit, total := total, limit := limit, offset := offset }

/-! ## `FileStorage` (`src/storage/FileStorage.ts`)

The YAML layer is modelled by an inductive document value. `YAML.parse` on a
file either throws (malformed syntax) or yields such a value; `YAML.stringify`
followed by `YAML.parse` is the identity on these values (the round-trip
contract of the `yaml` library), so the backing file is modelled as holding
the parsed document directly. -/

/-- A parsed YAML document value (also the shape of a parsed JavaScript value). -/
inductive YamlValue where
  | str (s : String)
  | num (n : Int)
  | bool (b : Bool)
  | null
  | arr (xs : List YamlValue)
  | obj (fields : List (String × YamlValue))

/-- JavaScript property access `v.k` (`undefined` is `none`); only plain
objects carry named properties in this model. -/
def yGet (v : YamlValue) (k : String) : Option YamlValue :=
  match v with
  | .obj fs => (fs.find? (fun kv => kv.1 == k)).map (fun kv => kv.2)
  | _ => none

/-- `typeof v === 'object' && v` (arrays and objects; `null` is falsy). -/
def isObjectLike : YamlValue → Bool
  | .obj _ => true
  | .arr _ => true
  | _ => false

/-- JavaScript falsiness of a parsed value (`null`, `false`, `0`, `''`). -/
def isFalsy : YamlValue → Bool
  | .null => true
  | .bool b => !b
  | .num n => n == 0
  | .str s => s == ""
  | _ => false

/-- `typeof v.k === 'string'`. -/
def isStrField (v : YamlValue) (k : String) : Bool :=
  match yGet v k with
  | some (.str _) => true
  | _ => false

/-- `Array.isArray(v.k)`. -/
def isArrField (v : YamlValue) (k : String) : Bool :=
  match yGet v k with
  | some (.arr _) => true
  | _ => false

/-- `typeof v.k === 'object' && v.k !== null` (arrays count as objects). -/
def isObjField (v : YamlValue) (k : String) : Bool :=
  match yGet v k with
  | some (.obj _) => true
  | some (.arr _) => true
  | _ => false

/-- `FileStorage.isValidPrompt`. -/
def isValidPrompt (value : YamlValue) : Bool :=
  isObjectLike value &&
    isStrField value "id" &&
    isStrField value "title" &&
    isStrField value "content" &&
    isArrField value "tags" &&
    isStrField value "category" &&
    isObjField value "metadata"

/-- `FileStorage.validateAndTransformData`: keep exactly the entries whose
value passes `isValidPrompt` (invalid ones are dropped with a warning). -/
def validateAndTransformData (data : YamlValue) : List (String × YamlValue) :=
  match data with
  | .obj fields => fields.filter (fun kv => isValidPrompt kv.2)
  | .arr xs => (xs.enum.map (fun iv => (toString iv.1, iv.2))).filter
      (fun kv => isValidPrompt kv.2)
  | _ => []

/-- The deserialization half of `FileStorage.load`, for an existing backing
file: `.error` models the `StorageError` thrown when `YAML.parse` fails;
otherwise `YAML.parse(...) || {}` is validated record by record. -/
def loadDoc (parseResult : Except String YamlValue) :
    Except String (List (String × YamlValue)) :=
  match parseResult with
  | .error e => .error ("Failed to load prompts: " ++ e)
  | .ok v =>
    let data := if isFalsy v then YamlValue.obj [] else v
    .ok (validateAndTransformData data)

/-! ### Serialization of the in-memory mapping -/

/-- Encoding of a `PromptVariable` as written by `YAML.stringify`. -/
def variableToYaml (v : PromptVariable) : YamlValue :=
  .obj
    ([("name", .str v.name), ("description", .str v.description),
      ("type",
        .str (match v.type with
              | .string => "string" | .number => "number"
              | .boolean => "boolean" | .array => "array")),
      ("required", .bool v.required)] ++
      (match v.defaultValue with
       | some (.str s) => [("defaultValue", .str s)]
       | some (.num n) => [("defaultValue", .num n)]
       | some (.bool b) => [("defaultValue", .bool b)]
       | some (.arr xs) => [("defaultValue", .arr (xs.map YamlValue.str))]
       | none => []))

/-- Encoding of `PromptMetadata` (keys in the creation order of the source;
optional keys omitted when absent). -/
def metadataToYaml (m : PromptMetadata) : YamlValue :=
  .obj
    ([("createdAt", .str m.createdAt), ("updatedAt", .str m.updatedAt),
      ("version", .str m.version)] ++
      (match m.author with | some a => [("author", .str a)] | none => []) ++
      (match m.usage with | some u => [("usage", .num (u : Int))] | none => []))

/-- Encoding of a `Prompt` (optional keys omitted when absent). -/
def promptToYaml (p : Prompt) : YamlValue :=
  .obj
    ([("id", .str p.id), ("title", .str p.title), ("content", .str p.content)] ++
      (match p.description with | some d => [("description", .str d)] | none => []) ++
      [("tags", .arr (p.tags.map YamlValue.str)), ("category", .str p.category)] ++
      (match p.«variables» with
       | some vs => [("variables", .arr (vs.map variableToYaml))]
       | none => []) ++
      [("metadata", metadataToYaml p.metadata)])

/-- The full mapping as one YAML document. -/
def storeToYaml (prompts : Store) : YamlValue :=
  .obj (prompts.map (fun kv => (kv.1, promptToYaml kv.2)))

/-! ### Decoding (for stating round-trip fidelity) -/

/-- Decode each element, failing when any element fails (decoder helper). -/
def optMapList (f : α → Option β) : List α → Option (List β)
  | [] => some []
  | a :: as =>
    match f a, optMapList f as with
    | some b, some bs => some (b :: bs)
    | _, _ => none

/-- Decode a YAML scalar string (helper for the decoders). -/
def strOfYaml : YamlValue → Option String
  | .str s => some s
  | _ => none

/-- Partial inverse of `variableToYaml`. -/
def variableOfYaml (v : YamlValue) : Option PromptVariable :=
  match yGet v "name", yGet v "description", yGet v "type", yGet v "required" with
  | some (.str name), some (.str descr), some (.str ty), some (.bool req) =>
    let vt : Option VarType :=
      if ty = "string" then some .string
      else if ty = "number" then some .number
      else if ty = "boolean" then some .boolean
      else if ty = "array" then some .array
      else none
    let dv : Option (Option DefaultValue) :=
      match yGet v "defaultValue" with
      | some (.str s) => some (some (.str s))
      | some (.num n) => some (some (.num n))
      | some (.bool b) => some (some (.bool b))
      | some (.arr xs) =>
        (optMapList strOfYaml xs).map (fun ss => some (DefaultValue.arr ss))
      | some _ => none
      | none => some none
    match vt, dv with
    | some t, some d =>
      some { name := name, description := descr, type := t, required := req,
             defaultValue := d }
    | _, _ => none
  | _, _, _, _ => none

/-- Partial inverse of `metadataToYaml`. -/
def metadataOfYaml (v : YamlValue) : Option PromptMetadata :=
  match yGet v "createdAt", yGet v "updatedAt", yGet v "version" with
  | some (.str c), some (.str u), some (.str ver) =>
    let author : Option (Option String) :=
      match yGet v "author" with
      | some (.str a) => some (some a)
      | some _ => none
      | none => some none
    let usage : Option (Option Nat) :=
      match yGet v "usage" with
      | some (.num n) => if n < 0 then none else some (some n.toNat)
      | some _ => none
      | none => some none
    match author, usage with
    | some a, some us =>
      some { createdAt := c, updatedAt := u, version := ver, author := a, usage := us }
    | _, _ => none
  | _, _, _ => none

/-- Partial inverse of `promptToYaml`. -/
def promptOfYaml (v : YamlValue) : Option Prompt :=
  match yGet v "id", yGet v "title", yGet v "content", yGet v "category" with
  | some (.str id), some (.str title), some (.str content), some (.str cat) =>
    let tags : Option (List String) :=
      match yGet v "tags" with
      | some (.arr xs) => optMapList strOfYaml xs
      | _ => none
    let descr : Option (Option String) :=
      match yGet v "description" with
      | some (.str d) => some (some d)
      | some _ => none
      | none => some none
    let vars : Option (Option (List PromptVariable)) :=
      match yGet v "variables" with
      | some (.arr xs) => (optMapList variableOfYaml xs).map some
      | some _ => none
      | none => some none
    let meta : Option PromptMetadata := (yGet v "metadata").bind metadataOfYaml
    match tags, descr, vars, meta with
    | some ts, some d, some vs, some m =>
      some { id := id, title := title, content := content, description := d,
             tags := ts, category := cat, «variables» := vs, metadata := m }
    | _, _, _, _ => none
  | _, _, _, _ => none

/-! ### Backups and the file-system state -/

/-- `timestamp.replace(/[:.]/g, '-')` on one character. -/
def sanChar (c : Char) : Char := if c = ':' || c = '.' then '-' else c

/-- `timestamp.replace(/[:.]/g, '-')`. -/
def sanTs (s : String) : String := (s.data.map sanChar).asString

/-- The backup filename built by `FileStorage.backup` for a given
`new Date().toISOString()` reading. -/
def backupFileName (timestamp : String) : String :=
  "prompts-backup-" ++ sanTs timestamp ++ ".yaml"

/-- `file.startsWith('prompts-backup-') && file.endsWith('.yaml')`. -/
def isBackupFile (f : String) : Bool :=
  headMatch "prompts-backup-".data f.data &&
    headMatch ".yaml".data.reverse f.data.reverse

/-- `FileStorage.cleanupOldBackups`, acting on the backup-directory listing:
sort the matching filenames, keep the 10 most recent, unlink the rest.
(The surrounding try/catch is modelled at the call site.) -/
def cleanupOldBackups (files : List String) : List String :=
  let backupFiles := (isort strLeB (files.filter isBackupFile)).reverse
  if backupFiles.length > 10 then
    let filesToDelete := backupFiles.drop 10
    files.filter (fun f => !(filesToDelete.contains f))
  else files

/-- The file-system state seen by `FileStorage`: the parsed content of
`prompts.yaml` (`none` when the file does not exist) and the listing of the
backup directory. -/
structure FileState where
  dataFile : Option YamlValue
  backups : List String

/-- `fs.copyFile` into the backup directory (overwrites a same-named file). -/
def addBackupFile (dir : List String) (name : String) : List String :=
  if dir.contains name then dir else dir ++ [name]

/-- `FileStorage.backup`: no-op without a backing file; otherwise copy it to a
timestamped name and prune. `pruneOk = false` models an I/O failure inside
`cleanupOldBackups`, which that method catches (warning only), leaving the
directory as copied. -/
def backupF (fs : FileState) (timestamp : String) (pruneOk : Bool) : FileState :=
  match fs.dataFile with
  | none => fs
  | some _ =>
    let name := backupFileName timestamp
    let files := addBackupFile fs.backups name
    { fs with backups := if pruneOk then cleanupOldBackups files else files }

/-- `FileStorage.save`: back up an existing file first, then overwrite the
backing file with the serialized mapping. -/
def saveF (fs : FileState) (prompts : Store) (timestamp : String) (pruneOk : Bool) :
    FileState :=
  let fs' := if fs.dataFile.isSome then backupF fs timestamp pruneOk else fs
  { fs' with dataFile := some (storeToYaml prompts) }

/-- `FileStorage.load` on the file-system state: create an empty file when
none exists; otherwise deserialize and validate (the file holds an
already-parseable document in this model). -/
def loadF (fs : FileState) (timestamp : String) :
    (List (String × YamlValue)) × FileState :=
  match fs.dataFile with
  | none => ([], saveF fs [] timestamp true)
  | some doc =>
    let data := if isFalsy doc then YamlValue.obj [] else doc
    (validateAndTransformData data, fs)

/-! ## Helper lemmas: the mapping -/

theorem find?_map_replace (ps : Store) (id : String) (p : Prompt) :
    ps.any (fun kv => kv.1 == id) = true →
      (ps.map (fun kv => if kv.1 == id then (id, p) else kv)).find?
          (fun kv => kv.1 == id) = some (id, p) := by
  intro h
  induction ps with
  | nil => simp at h
  | cons kv tl ih =>
    rw [List.map_cons]
    by_cases hk : (kv.1 == id) = true
    · rw [if_pos hk, List.find?_cons]
      simp
    · have hk' : (kv.1 == id) = false := by simpa using hk
      rw [if_neg hk, List.find?_cons]
      simp only [hk']
      apply ih
      simpa [List.any_cons, hk'] using h

theorem find?_map_replace_ne (ps : Store) (id id' : String) (p : Prompt) (h : id' ≠ id) :
    (ps.map (fun kv => if kv.1 == id then (id, p) else kv)).find?
        (fun kv => kv.1 == id') = ps.find? (fun kv => kv.1 == id') := by
  induction ps with
  | nil => simp
  | cons kv tl ih =>
    rw [List.map_cons]
    by_cases hk : (kv.1 == id) = true
    · have hkid : kv.1 = id := by simpa using hk
      have h1 : ((id : String) == id') = false := by
        simp only [beq_eq_false_iff_ne, ne_eq]
        exact fun e => h e.symm
      have h2 : (kv.1 == id') = false := by rw [hkid]; exact h1
      rw [if_pos hk, List.find?_cons, List.find?_cons]
      simp only [h1, h2, ih]
    · rw [if_neg hk, List.find?_cons, List.find?_cons]
      by_cases hkv : (kv.1 == id') = true
      · simp only [hkv]
      · have hkv' : (kv.1 == id') = false := by simpa using hkv
        simp only [hkv', ih]

/-- After `this.prompts[id] = p`, looking up `id` yields `p`. -/
theorem findP_setP_self (ps : Store) (id : String) (p : Prompt) :
    findP (setP ps id p) id = some p := by
  unfold findP setP
  by_cases h : ps.any (fun kv => kv.1 == id) = true
  · rw [if_pos h, find?_map_replace ps id p h]
    rfl
  · rw [if_neg h, List.find?_append]
    have hfind : ps.find? (fun kv => kv.1 == id) = none := by
      rw [List.find?_eq_none]
      intro kv hkv hb
      exact h (List.any_eq_true.2 ⟨kv, hkv, hb⟩)
    rw [hfind, List.find?_cons]
    simp

/-- Assignment at `id` does not affect lookups of other keys. -/
theorem findP_setP_ne (ps : Store) (id id' : String) (p : Prompt) (h : id' ≠ id) :
    findP (setP ps id p) id' = findP ps id' := by
  unfold findP setP
  by_cases hany : ps.any (fun kv => kv.1 == id) = true
  · rw [if_pos hany, find?_map_replace_ne ps id id' p h]
  · rw [if_neg hany, List.find?_append, List.find?_cons]
    have hne : ((id : String) == id') = false := by
      simp only [beq_eq_false_iff_ne, ne_eq]
      exact fun e => h e.symm
    simp [hne]

/-! ## Helper lemmas: dedup -/

theorem jsSetDedupAux_sublist (l : List String) :
    ∀ seen, (jsSetDedupAux seen l).Sublist l := by
  induction l with
  | nil => intro seen; simp [jsSetDedupAux]
  | cons t ts ih =>
    intro seen
    by_cases h : seen.contains t = true
    · simp only [jsSetDedupAux]
      rw [if_pos h]
      exact (ih seen).cons t
    · simp only [jsSetDedupAux]
      rw [if_neg h]
      exact (ih (t :: seen)).cons₂ t

theorem mem_jsSetDedupAux (x : String) (l : List String) :
    ∀ seen, x ∈ jsSetDedupAux seen l ↔ x ∈ l ∧ x ∉ seen := by
  induction l with
  | nil => intro seen; simp [jsSetDedupAux]
  | cons t ts ih =>
    intro seen
    by_cases h : seen.contains t = true
    · have ht : t ∈ seen := by simpa using h
      simp only [jsSetDedupAux]
      rw [if_pos h, ih seen]
      simp only [List.mem_cons]
      constructor
      · rintro ⟨hx, hs⟩
        exact ⟨Or.inr hx, hs⟩
      · rintro ⟨hx | hx, hs⟩
        · exact absurd (hx ▸ ht) hs
        · exact ⟨hx, hs⟩
    · have ht : t ∉ seen := by simpa using h
      simp only [jsSetDedupAux]
      rw [if_neg h]
      simp only [List.mem_cons]
      constructor
      · rintro (rfl | hx)
        · exact ⟨Or.inl rfl, ht⟩
        · rcases (ih (t :: seen)).1 hx with ⟨hx', hs⟩
          exact ⟨Or.inr hx', fun hm => hs (List.mem_cons_of_mem _ hm)⟩
      · rintro ⟨rfl | hx, hs⟩
        · exact Or.inl rfl
        · by_cases hxt : x = t
          · exact Or.inl hxt
          · exact Or.inr ((ih (t :: seen)).2 ⟨hx, by simp [hxt, hs]⟩)

theorem nodup_jsSetDedupAux (l : List String) :
    ∀ seen, (jsSetDedupAux seen l).Nodup := by
  induction l with
  | nil => intro seen; simp [jsSetDedupAux]
  | cons t ts ih =>
    intro seen
    by_cases h : seen.contains t = true
    · simp only [jsSetDedupAux]
      rw [if_pos h]
      exact ih seen
    · simp only [jsSetDedupAux]
      rw [if_neg h]
      refine List.Nodup.cons ?_ (ih (t :: seen))
      intro hmem
      exact ((mem_jsSetDedupAux t ts (t :: seen)).1 hmem).2 (List.mem_cons_self t seen)

/-- `[...new Set(l)]` is duplicate-free. -/
theorem jsSetDedup_nodup (l : List String) : (jsSetDedup l).Nodup :=
  nodup_jsSetDedupAux l []

/-- `[...new Set(l)]` is a subsequence of `l` (first-seen order preserved). -/
theorem jsSetDedup_sublist (l : List String) : (jsSetDedup l).Sublist l :=
  jsSetDedupAux_sublist l []

/-- `[...new Set(l)]` has exactly the members of `l`. -/
theorem mem_jsSetDedup (x : String) (l : List String) : x ∈ jsSetDedup l ↔ x ∈ l := by
  simpa using mem_jsSetDedupAux x l []

/-! ## Helper lemmas: stable insertion sort -/

theorem insertLe_perm (le : α → α → Bool) (a : α) (l : List α) :
    (insertLe le a l).Perm (a :: l) := by
  induction l with
  | nil => simp [insertLe]
  | cons b bs ih =>
    by_cases h : le a b = true
    · simp only [insertLe]
      rw [if_pos h]
    · simp only [insertLe]
      rw [if_neg h]
      exact (ih.cons b).trans (List.Perm.swap a b bs)

theorem isort_perm (le : α → α → Bool) (l : List α) : (isort le l).Perm l := by
  induction l with
  | nil => simp [isort]
  | cons a as ih => exact (insertLe_perm le a (isort le as)).trans (ih.cons a)

theorem mem_insertLe (le : α → α → Bool) (a x : α) (l : List α) :
    x ∈ insertLe le a l ↔ x = a ∨ x ∈ l := by
  rw [(insertLe_perm le a l).mem_iff]
  simp

theorem sorted_insertLe (le : α → α → Bool)
    (htot : ∀ x y, le x y = false → le y x = true)
    (htrans : ∀ x y z, le x y = true → le y z = true → le x z = true)
    (a : α) : ∀ l, l.Pairwise (fun x y => le x y = true) →
      (insertLe le a l).Pairwise (fun x y => le x y = true) := by
  intro l
  induction l with
  | nil => intro _; simp [insertLe]
  | cons b bs ih =>
    intro h
    rcases List.pairwise_cons.1 h with ⟨hb, hbs⟩
    by_cases hab : le a b = true
    · simp only [insertLe]
      rw [if_pos hab]
      refine List.pairwise_cons.2 ⟨?_, h⟩
      intro x hx
      rcases List.mem_cons.1 hx with rfl | hx
      · exact hab
      · exact htrans a b x hab (hb x hx)
    · simp only [insertLe]
      rw [if_neg hab]
      refine List.pairwise_cons.2 ⟨?_, ih hbs⟩
      intro x hx
      rcases (mem_insertLe le a x bs).1 hx with hxa | hx
      · rw [hxa]
        exact htot a b (by simpa using hab)
      · exact hb x hx

theorem sorted_isort (le : α → α → Bool)
    (htot : ∀ x y, le x y = false → le y x = true)
    (htrans : ∀ x y z, le x y = true → le y z = true → le x z = true)
    (l : List α) : (isort le l).Pairwise (fun x y => le x y = true) := by
  induction l with
  | nil => simp [isort]
  | cons a as ih => exact sorted_insertLe le htot htrans a (isort le as) ih

/-! ## Helper lemmas: `getPrompt` -/

/-- `k` sequential `getPrompt` calls on the same id. -/
def getIter (st : ServiceState) (id : String) : Nat → ServiceState
  | 0 => st
  | k + 1 => (getPrompt (getIter st id k) id).2

theorem getPrompt_present (st : ServiceState) (id : String) (p : Prompt)
    (h : findP st.prompts id = some p) :
    getPrompt st id =
      (some { p with metadata :=
                { p.metadata with usage := some (p.metadata.usage.getD 0 + 1) } },
        { prompts := setP st.prompts id
            { p with metadata :=
                { p.metadata with usage := some (p.metadata.usage.getD 0 + 1) } },
          persisted := setP st.prompts id
            { p with metadata :=
                { p.metadata with usage := some (p.metadata.usage.getD 0 + 1) } } }) := by
  unfold getPrompt
  rw [h]

theorem getIter_usage (st : ServiceState) (id : String) (p : Prompt) (u : Nat)
    (h : findP st.prompts id = some p) (hu : p.metadata.usage = some u) :
    ∀ k, ∃ q, findP (getIter st id k).prompts id = some q ∧
      q.metadata.usage = some (u + k) := by
  intro k
  induction k with
  | zero => exact ⟨p, h, by simpa using hu⟩
  | succ k ih =>
    rcases ih with ⟨q, hq, hqu⟩
    refine ⟨{ q with metadata :=
        { q.metadata with usage := some (q.metadata.usage.getD 0 + 1) } }, ?_, ?_⟩
    · show findP (getPrompt (getIter st id k) id).2.prompts id = _
      rw [getPrompt_present _ _ _ hq]
      exact findP_setP_self _ _ _
    · simp [hqu]
      omega

/-! ## Helper lemmas: substring occurrence -/

theorem headMatch_iff (p s : List Char) :
    headMatch p s = true ↔ ∃ t, s = p ++ t := by
  induction p generalizing s with
  | nil => simp [headMatch]
  | cons a as ih =>
    cases s with
    | nil => simp [headMatch]
    | cons b bs =>
      simp only [headMatch, Bool.and_eq_true, beq_iff_eq, ih, List.cons_append, List.cons.injEq]
      constructor
      · rintro ⟨rfl, t, rfl⟩; exact ⟨t, rfl, rfl⟩
      · rintro ⟨t, rfl, rfl⟩; exact ⟨rfl, t, rfl⟩

/-- `subMatch p s` holds exactly when `p` occurs contiguously inside `s`. -/
theorem subMatch_iff (p s : List Char) :
    subMatch p s = true ↔ ∃ u t, s = u ++ p ++ t := by
  induction s with
  | nil =>
    simp only [subMatch, List.isEmpty_iff]
    constructor
    · rintro rfl; exact ⟨[], [], rfl⟩
    · rintro ⟨u, t, h⟩
      rcases List.append_eq_nil.1 h.symm with ⟨h1, h2⟩
      exact (List.append_eq_nil.1 h1).2
  | cons b bs ih =>
    simp only [subMatch, Bool.or_eq_true, headMatch_iff, ih]
    constructor
    · rintro (⟨t, ht⟩ | ⟨u, t, ht⟩)
      · exact ⟨[], t, by simp [ht]⟩
      · exact ⟨b :: u, t, by simp [ht]⟩
    · rintro ⟨u, t, ht⟩
      cases u with
      | nil => exact Or.inl ⟨t, by simpa using ht⟩
      | cons c cs =>
        simp only [List.cons_append, List.cons.injEq] at ht
        exact Or.inr ⟨cs, t, ht.2⟩

/-- The case-insensitive `includes`: `pat` (lowered) occurs inside `s` (lowered). -/
theorem includesCI_iff (s pat : String) :
    includesCI s pat = true ↔ ∃ u t, lcList s = u ++ lcList pat ++ t :=
  subMatch_iff (lcList pat) (lcList s)

theorem filter_setP_fresh (ps : Store) (id : String) (p : Prompt)
    (hany : ps.any (fun kv => kv.1 == id) = false) :
    (setP ps id p).filter (fun kv => kv.1 == id) = [(id, p)] := by
  unfold setP
  rw [if_neg (by simp [hany]), List.filter_append]
  have h1 : ps.filter (fun kv => kv.1 == id) = [] := by
    rw [List.filter_eq_nil_iff]
    intro kv hkv hb
    exact absurd hb (by simpa using (List.any_eq_false.1 hany) kv hkv)
  rw [h1]
  simp

/-! ## Claim C1 -/

/-- **C1**: for every id, `getPrompt` returns `none` when the id is absent from
the mapping; when it is present, it increments that record's usage counter by
exactly 1 (leaving every other field unchanged), persists the full mapping via
the storage adapter before returning, and returns the mutated record; and after
`k` sequential successful gets of the same id the usage counter has grown by
exactly `k`. -/
theorem C1_getPrompt_usage (st : ServiceState) (id : String) :
    (findP st.prompts id = none → getPrompt st id = (none, st)) ∧
    (∀ p, findP st.prompts id = some p →
      ∃ p', (getPrompt st id).1 = some p' ∧
        p'.metadata.usage = some (p.metadata.usage.getD 0 + 1) ∧
        p' = { p with metadata :=
                 { p.metadata with usage := some (p.metadata.usage.getD 0 + 1) } } ∧
        (getPrompt st id).2.prompts = setP st.prompts id p' ∧
        (getPrompt st id).2.persisted = (getPrompt st id).2.prompts ∧
        findP (getPrompt st id).2.prompts id = some p') ∧
    (∀ p u k, findP st.prompts id = some p → p.metadata.usage = some u →
      ∃ q, findP (getIter st id k).prompts id = some q ∧
        q.metadata.usage = some (u + k)) := by
  refine ⟨?_, ?_, ?_⟩
  · intro h
    unfold getPrompt
    rw [h]
  · intro p h
    refine ⟨{ p with metadata :=
        { p.metadata with usage := some (p.metadata.usage.getD 0 + 1) } },
      ?_, rfl, rfl, ?_, ?_, ?_⟩ <;> rw [getPrompt_present st id p h]
    · exact findP_setP_self _ _ _
  · intro p u k h hu
    exact getIter_usage st id p u h hu k

/-- Witness for C1: a record with usage 5; after 3 sequential gets the stored
usage is 8, and a get on an absent id is a no-op returning `none`. -/
theorem C1_getPrompt_usage_witness :
    (∃ q, findP (getIter
        { prompts := [("id1",
            { id := "id1", title := "t", content := "c", description := none,
              tags := [], category := "k", «variables» := none,
              metadata := { createdAt := "d", updatedAt := "d", version := "1.0.0",
                            author := none, usage := some 5 } })],
          persisted := [] } "id1" 3).prompts "id1" = some q ∧
      q.metadata.usage = some 8) ∧
    getPrompt { prompts := [], persisted := [] } "nope" =
      (none, { prompts := [], persisted := [] }) :=
  ⟨(C1_getPrompt_usage
      { prompts := [("id1",
          { id := "id1", title := "t", content := "c", description := none,
            tags := [], category := "k", «variables» := none,
            metadata := { createdAt := "d", updatedAt := "d", version := "1.0.0",
                          author := none, usage := some 5 } })],
        persisted := [] } "id1").2.2 _ 5 3 rfl rfl,
    (C1_getPrompt_usage { prompts := [], persisted := [] } "nope").1 rfl⟩

/-! ## Claim C2 -/

/-- **C2**: for every valid create request, `createPrompt` returns a record
whose id is the freshly generated non-empty identifier (assumed fresh and
non-empty, as produced by `randomUUID()`), with `version = "1.0.0"`,
`usage = 0`, `createdAt = updatedAt`, author copied only when provided, tags
equal to the request's tags with duplicates removed preserving first-seen
order, and variables defaulting to the empty sequence when absent; the record
is added to the mapping (occurring exactly once under its id) and the full
mapping is persisted. -/
theorem C2_createPrompt (st : ServiceState) (req : CreatePromptRequest) (id now : String)
    (hid : id ≠ "") (hfresh : findP st.prompts id = none)
    (p : Prompt) (st' : ServiceState) (heq : createPrompt st req id now = (p, st')) :
    p.id = id ∧ p.id ≠ "" ∧
    p.metadata.version = "1.0.0" ∧
    p.metadata.usage = some 0 ∧
    p.metadata.createdAt = p.metadata.updatedAt ∧
    p.metadata.createdAt = now ∧
    (∀ a, p.metadata.author = some a → req.author = some a) ∧
    p.tags = jsSetDedup req.tags ∧
    p.tags.Nodup ∧
    p.tags.Sublist req.tags ∧
    (∀ t, t ∈ p.tags ↔ t ∈ req.tags) ∧
    (req.«variables» = none → p.«variables» = some []) ∧
    (∀ vs, req.«variables» = some vs → p.«variables» = some vs) ∧
    findP st'.prompts id = some p ∧
    st'.persisted = st'.prompts ∧
    st'.prompts.filter (fun kv => kv.1 == id) = [(id, p)] := by
  have hp : p = (createPrompt st req id now).1 := by rw [heq]
  have hst : st' = (createPrompt st req id now).2 := by rw [heq]
  subst hp
  subst hst
  have hany : st.prompts.any (fun kv => kv.1 == id) = false := by
    rw [List.any_eq_false]
    intro kv hkv hb
    have : st.prompts.find? (fun kv => kv.1 == id) = none := by
      unfold findP at hfresh
      exact Option.map_eq_none'.1 hfresh
    rw [List.find?_eq_none] at this
    exact this kv hkv hb
  refine ⟨rfl, hid, rfl, rfl, rfl, rfl, ?_, rfl, jsSetDedup_nodup _, jsSetDedup_sublist _,
    fun t => mem_jsSetDedup t _, ?_, ?_, ?_, rfl, ?_⟩
  · intro a ha
    have ha' : req.author.filter (fun s => s ≠ "") = some a := ha
    rw [Option.filter_eq_some] at ha'
    exact ha'.1
  · intro hv
    simp [createPrompt, hv]
  · intro vs hv
    simp [createPrompt, hv]
  · show findP (setP st.prompts id _) id = _
    exact findP_setP_self _ _ _
  · exact filter_setP_fresh st.prompts id _ hany

/-- Witness for C2: creating from an empty store with tags
`["a","b","a"]` stores tags `["a","b"]`, version `"1.0.0"`, usage 0. -/
theorem C2_createPrompt_witness :
    (createPrompt { prompts := [], persisted := [] }
        { title := "T", content := "C", description := none,
          tags := ["a", "b", "a"], category := "cat", «variables» := none,
          author := some "me" } "uuid-1" "2024-01-01").1.tags = ["a", "b"] ∧
    (createPrompt { prompts := [], persisted := [] }
        { title := "T", content := "C", description := none,
          tags := ["a", "b", "a"], category := "cat", «variables» := none,
          author := some "me" } "uuid-1" "2024-01-01").1.metadata.version = "1.0.0" ∧
    (createPrompt { prompts := [], persisted := [] }
        { title := "T", content := "C", description := none,
          tags := ["a", "b", "a"], category := "cat", «variables» := none,
          author := some "me" } "uuid-1" "2024-01-01").1.metadata.usage = some 0 := by
  obtain ⟨-, -, h3, h4, -, -, -, h8, -⟩ :=
    C2_createPrompt { prompts := [], persisted := [] }
      { title := "T", content := "C", description := none,
        tags := ["a", "b", "a"], category := "cat", «variables» := none,
        author := some "me" } "uuid-1" "2024-01-01" (by decide) rfl _ _ rfl
  exact ⟨h8.trans rfl, h3, h4⟩

/-- The record built by `updatePrompt` for an existing record `p`. -/
def updatedRecord (p : Prompt) (req : UpdatePromptRequest) (now : String) : Prompt :=
  { id := p.id
    title := req.title.getD p.title
    content := req.content.getD p.content
    description := match req.description with
                   | some d => some d
                   | none => p.description
    tags := match req.tags with
            | some t => jsSetDedup t
            | none => p.tags
    category := req.category.getD p.category
    «variables» := match req.«variables» with
                   | some v => some v
                   | none => p.«variables»
    metadata := { p.metadata with
                  updatedAt := now
                  version := incrementVersion p.metadata.version } }

/-! ## Claim C3 -/

/-- **C3**: for every id and partial update request, `updatePrompt` returns
`none` and changes nothing when the id is absent; otherwise it overwrites
exactly the fields present in the request (`title`, `content`, `description`,
`tags`, `category`, `variables`), leaves absent fields untouched, deduplicates
tags when present, sets `updatedAt` to now, and increments only the patch
component of the version (for a version `a.b.c` with numeric `c`, the result
is `a.b.(c+1)` with major/minor unchanged), then persists and returns the
updated record. -/
theorem C3_updatePrompt (st : ServiceState) (id : String) (req : UpdatePromptRequest)
    (now : String) :
    (findP st.prompts id = none → updatePrompt st id req now = (none, st)) ∧
    (∀ p, findP st.prompts id = some p →
      ∃ p', (updatePrompt st id req now).1 = some p' ∧
        p'.title = req.title.getD p.title ∧
        p'.content = req.content.getD p.content ∧
        p'.category = req.category.getD p.category ∧
        p'.description = (match req.description with
                          | some d => some d
                          | none => p.description) ∧
        p'.tags = (match req.tags with
                   | some t => jsSetDedup t
                   | none => p.tags) ∧
        p'.«variables» = (match req.«variables» with
                          | some v => some v
                          | none => p.«variables») ∧
        p'.id = p.id ∧
        p'.metadata.updatedAt = now ∧
        p'.metadata.version = incrementVersion p.metadata.version ∧
        p'.metadata.createdAt = p.metadata.createdAt ∧
        p'.metadata.author = p.metadata.author ∧
        p'.metadata.usage = p.metadata.usage ∧
        (updatePrompt st id req now).2.prompts = setP st.prompts id p' ∧
        (updatePrompt st id req now).2.persisted = (updatePrompt st id req now).2.prompts ∧
        findP (updatePrompt st id req now).2.prompts id = some p') ∧
    (∀ v a b c n, jsSplitDot v = [a, b, c] → c ≠ "" → jsParseInt10 c = some n →
      incrementVersion v = a ++ "." ++ b ++ "." ++ toString (n + 1)) := by
  refine ⟨?_, ?_, ?_⟩
  · intro h
    unfold updatePrompt
    rw [h]
  · intro p h
    have hupd : updatePrompt st id req now =
        (some (updatedRecord p req now),
          { prompts := setP st.prompts id (updatedRecord p req now),
            persisted := setP st.prompts id (updatedRecord p req now) }) := by
      unfold updatePrompt updatedRecord
      rw [h]
    refine ⟨updatedRecord p req now, by rw [hupd], rfl, rfl, rfl, rfl, rfl, rfl, rfl, rfl,
      rfl, rfl, rfl, rfl, by rw [hupd], by rw [hupd], ?_⟩
    rw [hupd]
    exact findP_setP_self _ _ _
  · intro v a b c n hsplit hcne hc
    unfold incrementVersion
    rw [hsplit]
    simp only [List.getD_cons_zero, List.getD_cons_succ]
    rw [if_neg hcne, hc]
    rfl

/-- Witness for C3: updating only the title of a record at version `"1.0.2"`
yields version `"1.0.3"` and leaves the content untouched; and the version
increment alone maps `"2.3.9"` to `"2.3.10"`. -/
theorem C3_updatePrompt_witness :
    (∃ p', (updatePrompt
        { prompts := [("i1",
            { id := "i1", title := "Old", content := "C0", description := none,
              tags := [], category := "k", «variables» := none,
              metadata := { createdAt := "d", updatedAt := "d", version := "1.0.2",
                            author := none, usage := some 0 } })],
          persisted := [] } "i1"
        { title := some "New", content := none, description := none,
          tags := none, category := none, «variables» := none } "d2").1 = some p' ∧
      p'.metadata.version = "1.0.3" ∧ p'.title = "New" ∧ p'.content = "C0") ∧
    incrementVersion "2.3.9" = "2.3.10" := by
  obtain ⟨-, hpresent, hver⟩ :=
    C3_updatePrompt
      { prompts := [("i1",
          { id := "i1", title := "Old", content := "C0", description := none,
            tags := [], category := "k", «variables» := none,
            metadata := { createdAt := "d", updatedAt := "d", version := "1.0.2",
                          author := none, usage := some 0 } })],
        persisted := [] } "i1"
      { title := some "New", content := none, description := none,
        tags := none, category := none, «variables» := none } "d2"
  obtain ⟨p', h1, ht, hc, -, -, -, -, -, -, hv, -⟩ := hpresent _ rfl
  exact ⟨⟨p', h1, hv.trans rfl, ht.trans rfl, hc.trans rfl⟩,
    (hver "2.3.9" "2" "3" "9" 9 rfl (by decide) rfl).trans rfl⟩

/-! ## Claim C10 -/

/-- A sequence of update operations `(id, request, now)`, applied in order. -/
def updSeq (st : ServiceState) : List (String × UpdatePromptRequest × String) → ServiceState
  | [] => st
  | (id, req, now) :: rest => updSeq (updatePrompt st id req now).2 rest

theorem updatePrompt_absent (st : ServiceState) (id : String) (req : UpdatePromptRequest)
    (now : String) (h : findP st.prompts id = none) :
    updatePrompt st id req now = (none, st) := by
  unfold updatePrompt
  rw [h]

theorem updatePrompt_present (st : ServiceState) (id : String) (req : UpdatePromptRequest)
    (now : String) (p : Prompt) (h : findP st.prompts id = some p) :
    updatePrompt st id req now =
      (some (updatedRecord p req now),
        { prompts := setP st.prompts id (updatedRecord p req now),
          persisted := setP st.prompts id (updatedRecord p req now) }) := by
  unfold updatePrompt updatedRecord
  rw [h]

theorem updatedRecord_description_isSome (p : Prompt) (req : UpdatePromptRequest)
    (now : String) (hd : p.description.isSome = true) :
    (updatedRecord p req now).description.isSome = true := by
  simp only [updatedRecord]
  cases hreq : req.description with
  | some d => simp
  | none => simpa using hd

theorem updSeq_description (ops : List (String × UpdatePromptRequest × String)) :
    ∀ st id p, findP st.prompts id = some p → p.description.isSome = true →
      ∃ q, findP (updSeq st ops).prompts id = some q ∧ q.description.isSome = true := by
  induction ops with
  | nil =>
    intro st id p h hd
    exact ⟨p, h, hd⟩
  | cons op rest ih =>
    rintro st id p h hd
    obtain ⟨id', req, now⟩ := op
    show ∃ q, findP (updSeq (updatePrompt st id' req now).2 rest).prompts id = some q ∧ _
    by_cases hfind : findP st.prompts id' = none
    · rw [updatePrompt_absent st id' req now hfind]
      exact ih st id p h hd
    · obtain ⟨p', hp'⟩ := Option.ne_none_iff_exists'.1 hfind
      rw [updatePrompt_present st id' req now p' hp']
      by_cases hid : id = id'
      · subst hid
        have hpp : p' = p := Option.some_inj.1 (hp'.symm.trans h)
        subst hpp
        refine ih _ id (updatedRecord p' req now) ?_ ?_
        · exact findP_setP_self _ _ _
        · exact updatedRecord_description_isSome p' req now hd
      · refine ih _ id p ?_ hd
        show findP (setP st.prompts id' _) id = some p
        rw [findP_setP_ne st.prompts id' id _ hid]
        exact h

/-- **C10** (implicit): for every existing record whose description is set and
every update request in which the description field is absent, `updatePrompt`
preserves the existing description unchanged; consequently no sequence of
update operations can ever remove a description once set — an update can
overwrite a description with new text but can never clear the field. -/
theorem C10_description_never_cleared (st : ServiceState) (id : String)
    (req : UpdatePromptRequest) (now : String) :
    (∀ p d, findP st.prompts id = some p → p.description = some d →
      req.description = none →
      ∃ p', (updatePrompt st id req now).1 = some p' ∧ p'.description = some d) ∧
    (∀ ops p, findP st.prompts id = some p → p.description.isSome = true →
      ∃ q, findP (updSeq st ops).prompts id = some q ∧
        q.description.isSome = true) := by
  constructor
  · intro p d h hpd hreq
    rw [updatePrompt_present st id req now p h]
    refine ⟨updatedRecord p req now, rfl, ?_⟩
    simp only [updatedRecord, hreq]
    exact hpd
  · intro ops p h hd
    exact updSeq_description ops st id p h hd

/-- Witness for C10: a record with description `"keep"` updated twice (once
with a new title, once with a new description) still has a set description. -/
theorem C10_description_never_cleared_witness :
    (∃ p', (updatePrompt
        { prompts := [("i1",
            { id := "i1", title := "T", content := "C", description := some "keep",
              tags := [], category := "k", «variables» := none,
              metadata := { createdAt := "d", updatedAt := "d", version := "1.0.0",
                            author := none, usage := some 0 } })],
          persisted := [] } "i1"
        { title := some "New", content := none, description := none,
          tags := none, category := none, «variables» := none } "d2").1 = some p' ∧
      p'.description = some "keep") ∧
    (∃ q, findP (updSeq
        { prompts := [("i1",
            { id := "i1", title := "T", content := "C", description := some "keep",
              tags := [], category := "k", «variables» := none,
              metadata := { createdAt := "d", updatedAt := "d", version := "1.0.0",
                            author := none, usage := some 0 } })],
          persisted := [] }
        [("i1", { title := some "New", content := none, description := none,
                  tags := none, category := none, «variables» := none }, "d2"),
         ("i1", { title := none, content := none, description := some "newdesc",
                  tags := none, category := none, «variables» := none }, "d3")]).prompts
        "i1" = some q ∧ q.description.isSome = true) := by
  have h := C10_description_never_cleared
    { prompts := [("i1",
        { id := "i1", title := "T", content := "C", description := some "keep",
          tags := [], category := "k", «variables» := none,
          metadata := { createdAt := "d", updatedAt := "d", version := "1.0.0",
                        author := none, usage := some 0 } })],
      persisted := [] } "i1"
    { title := some "New", content := none, description := none,
      tags := none, category := none, «variables» := none } "d2"
  exact ⟨h.1 _ "keep" rfl rfl rfl,
    h.2 [("i1", { title := some "New", content := none, description := none,
                  tags := none, category := none, «variables» := none }, "d2"),
         ("i1", { title := none, content := none, description := some "newdesc",
                  tags := none, category := none, «variables» := none }, "d3")]
      _ rfl rfl⟩

/-! ## Claim C4 -/

theorem listLE_iff (gt : String → Int) (a b : Prompt) :
    listLE gt a b = true ↔
      ((listKey gt b).1 < (listKey gt a).1 ∨
        ((listKey gt b).1 = (listKey gt a).1 ∧ (listKey gt b).2 ≤ (listKey gt a).2)) := by
  simp [listLE]

theorem listLE_total (gt : String → Int) (a b : Prompt) :
    listLE gt a b = false → listLE gt b a = true := by
  intro h
  have h' : ¬((listKey gt b).1 < (listKey gt a).1 ∨
      ((listKey gt b).1 = (listKey gt a).1 ∧ (listKey gt b).2 ≤ (listKey gt a).2)) := by
    rw [← listLE_iff gt a b]
    simp [h]
  rw [listLE_iff]
  omega

theorem listLE_trans (gt : String → Int) (a b c : Prompt) :
    listLE gt a b = true → listLE gt b c = true → listLE gt a c = true := by
  rw [listLE_iff, listLE_iff, listLE_iff]
  omega

/-- **C4**: `listPrompts` filters by the case-insensitive category, tag and
title/description passes, sorts the survivors by usage descending with ties
broken by `updatedAt` descending (via the abstracted date value `gt`),
defaults `limit` to 50 and `offset` to 0, and returns
`items = slice [offset, offset+limit)` of the sorted survivors together with
`total` = the count before pagination. -/
theorem C4_listPrompts (gt : String → Int) (st : ServiceState) (filters : SearchFilters) :
    ∃ sorted : List Prompt,
      ((storeValues st.prompts).filter
          (fun p => matchCategory filters p && matchTags filters p &&
            matchTitle filters p)).Perm sorted ∧
      sorted.Pairwise (fun a b =>
        (listKey gt b).1 < (listKey gt a).1 ∨
          ((listKey gt b).1 = (listKey gt a).1 ∧
            (listKey gt b).2 ≤ (listKey gt a).2)) ∧
      (listPrompts gt st filters).total =
        ((storeValues st.prompts).filter
          (fun p => matchCategory filters p && matchTags filters p &&
            matchTitle filters p)).length ∧
      (listPrompts gt st filters).limit = jsOrNat filters.limit 50 ∧
      (listPrompts gt st filters).offset = jsOrNat filters.offset 0 ∧
      (filters.limit = none → (listPrompts gt st filters).limit = 50) ∧
      (filters.offset = none → (listPrompts gt st filters).offset = 0) ∧
      (listPrompts gt st filters).items =
        (sorted.drop (listPrompts gt st filters).offset).take
          (listPrompts gt st filters).limit ∧
      (∀ p ∈ (listPrompts gt st filters).items,
        matchCategory filters p = true ∧ matchTags filters p = true ∧
          matchTitle filters p = true) := by
  have hchain : (((storeValues st.prompts).filter (matchCategory filters)).filter
        (matchTags filters)).filter (matchTitle filters) =
      (storeValues st.prompts).filter
        (fun p => matchCategory filters p && matchTags filters p &&
          matchTitle filters p) := by
    rw [List.filter_filter, List.filter_filter]
    apply List.filter_congr
    intro a _
    cases matchCategory filters a <;> cases matchTags filters a <;>
      cases matchTitle filters a <;> rfl
  refine ⟨isort (listLE gt)
      ((((storeValues st.prompts).filter (matchCategory filters)).filter
        (matchTags filters)).filter (matchTitle filters)), ?_, ?_, ?_, rfl, rfl,
      ?_, ?_, rfl, ?_⟩
  · rw [hchain] at *
    exact (isort_perm _ _).symm
  · exact (sorted_isort (listLE gt) (listLE_total gt) (listLE_trans gt) _).imp
      (fun h => (listLE_iff gt _ _).1 h)
  · show (isort (listLE gt) _).length = _
    rw [(isort_perm _ _).length_eq, hchain]
  · intro h
    show jsOrNat filters.limit 50 = 50
    rw [h]
    rfl
  · intro h
    show jsOrNat filters.offset 0 = 0
    rw [h]
    rfl
  · intro p hp
    have h1 : p ∈ isort (listLE gt)
        ((((storeValues st.prompts).filter (matchCategory filters)).filter
          (matchTags filters)).filter (matchTitle filters)) :=
      List.mem_of_mem_drop (List.mem_of_mem_take hp)
    have h2 := (isort_perm (listLE gt) _).mem_iff.1 h1
    rw [hchain] at h2
    rcases List.mem_filter.1 h2 with ⟨-, hm⟩
    simp only [Bool.and_eq_true] at hm
    exact ⟨hm.1.1, hm.1.2, hm.2⟩

/-- A small record for concrete `list`/`search` examples. -/
def sampleP (id title content cat : String) (tags : List String) (usage : Nat) : Prompt :=
  { id := id, title := title, content := content, description := none, tags := tags,
    category := cat, «variables» := none,
    metadata := { createdAt := "d", updatedAt := "d", version := "1.0.0",
                  author := none, usage := some usage } }

/-- Store for the C4 category-filter example. -/
def c4storeA : ServiceState :=
  { prompts := [("i1", sampleP "i1" "A" "c" "Coding" [] 3),
                ("i2", sampleP "i2" "B" "c" "writing" [] 2),
                ("i3", sampleP "i3" "C" "c" "coding-extra" [] 1)],
    persisted := [] }

/-- Store for the C4 pagination example. -/
def c4storeB : ServiceState :=
  { prompts := [("i1", sampleP "i1" "A" "c" "x" [] 3),
                ("i2", sampleP "i2" "B" "c" "x" [] 2),
                ("i3", sampleP "i3" "C" "c" "x" [] 1)],
    persisted := [] }

/-- Filters of the C4 category example. -/
def c4fCat : SearchFilters :=
  { tags := none, category := some "coding", title := none, limit := none, offset := none }

/-- Filters of the C4 pagination example. -/
def c4fPage : SearchFilters :=
  { tags := none, category := none, title := none, limit := some 2, offset := some 1 }

/-- Witness for C4: on a three-record store, filtering by category `"coding"`
keeps only the records whose category case-insensitively contains it, and
pagination `{limit := 2, offset := 1}` on a 3-element result returns exactly
the items at indices 1 and 2 while `total` still reports 3. -/
theorem C4_listPrompts_witness :
    (listPrompts (fun _ => 0) c4storeA c4fCat).items.map Prompt.id = ["i1", "i3"] ∧
    (listPrompts (fun _ => 0) c4storeB c4fPage).items.map Prompt.id = ["i2", "i3"] ∧
    (listPrompts (fun _ => 0) c4storeB c4fPage).total = 3 ∧
    (listPrompts (fun _ => 0) c4storeB c4fPage).limit = 2 ∧
    (listPrompts (fun _ => 0) c4storeB c4fPage).offset = 1 ∧
    (∀ p ∈ (listPrompts (fun _ => 0) c4storeA c4fCat).items,
      matchCategory c4fCat p = true ∧ matchTags c4fCat p = true ∧
        matchTitle c4fCat p = true) := by
  refine ⟨by decide, by decide, by decide, by decide, by decide, ?_⟩
  obtain ⟨-, -, -, -, -, -, -, -, -, hmem⟩ := C4_listPrompts (fun _ => 0) c4storeA c4fCat
  exact hmem

/-! ## Claim C5 -/

theorem descMatch_iff (q : String) (o : Option String) :
    (match o with
     | some d => if d = "" then false else includesCI d q
     | none => false) = true ↔
      ∃ d, o = some d ∧ d ≠ "" ∧ ∃ u t, lcList d = u ++ lcList q ++ t := by
  cases o with
  | none => simp
  | some d =>
    by_cases hd : d = ""
    · simp [hd]
    · simp [hd, includesCI_iff]

/-- The free-text match of `searchPrompts`, written as substring occurrence. -/
theorem queryMatches_iff (q : String) (p : Prompt) :
    queryMatches q p = true ↔
      ((∃ u t, lcList p.title = u ++ lcList q ++ t) ∨
        (∃ d, p.description = some d ∧ d ≠ "" ∧
          ∃ u t, lcList d = u ++ lcList q ++ t) ∨
        (∃ u t, lcList p.content = u ++ lcList q ++ t) ∨
        (∃ tag ∈ p.tags, ∃ u t, lcList tag = u ++ lcList q ++ t) ∨
        (∃ u t, lcList p.category = u ++ lcList q ++ t)) := by
  unfold queryMatches
  rw [Bool.or_eq_true, Bool.or_eq_true, Bool.or_eq_true, Bool.or_eq_true,
    includesCI_iff, includesCI_iff, includesCI_iff, descMatch_iff, List.any_eq_true]
  simp only [includesCI_iff]
  rw [or_assoc, or_assoc, or_assoc]

theorem searchLE_iff (q : String) (a b : Prompt) :
    searchLE q a b = true ↔
      (calculateRelevanceScore b q < calculateRelevanceScore a q ∨
        (calculateRelevanceScore b q = calculateRelevanceScore a q ∧
          b.metadata.usage.getD 0 ≤ a.metadata.usage.getD 0)) := by
  simp [searchLE]

theorem searchLE_total (q : String) (a b : Prompt) :
    searchLE q a b = false → searchLE q b a = true := by
  intro h
  have h' : ¬(calculateRelevanceScore b q < calculateRelevanceScore a q ∨
      (calculateRelevanceScore b q = calculateRelevanceScore a q ∧
        b.metadata.usage.getD 0 ≤ a.metadata.usage.getD 0)) := by
    rw [← searchLE_iff q a b]
    simp [h]
  rw [searchLE_iff]
  omega

theorem searchLE_trans (q : String) (a b c : Prompt) :
    searchLE q a b = true → searchLE q b c = true → searchLE q a c = true := by
  rw [searchLE_iff, searchLE_iff, searchLE_iff]
  omega

/-- **C5**: `searchPrompts` keeps a record iff the query occurs
case-insensitively as a substring of its title, (truthy) description, content,
any tag, or category, with the category/tags filters applied afterwards as an
AND condition; the matching records are sorted by relevance score descending
with ties broken by usage descending, and the score adds exactly 5 for tag
matches regardless of how many tags match. -/
theorem C5_searchPrompts (st : ServiceState) (q : String) (filters : SearchFilters) :
    ∃ sorted : List Prompt,
      ((storeValues st.prompts).filter
          (fun p => queryMatches q p && matchCategory filters p &&
            matchTags filters p)).Perm sorted ∧
      sorted.Pairwise (fun a b =>
        calculateRelevanceScore b q < calculateRelevanceScore a q ∨
          (calculateRelevanceScore b q = calculateRelevanceScore a q ∧
            b.metadata.usage.getD 0 ≤ a.metadata.usage.getD 0)) ∧
      (searchPrompts st q filters).total =
        ((storeValues st.prompts).filter
          (fun p => queryMatches q p && matchCategory filters p &&
            matchTags filters p)).length ∧
      (searchPrompts st q filters).items =
        (sorted.drop (searchPrompts st q filters).offset).take
          (searchPrompts st q filters).limit ∧
      (∀ p ∈ (searchPrompts st q filters).items,
        queryMatches q p = true ∧ matchCategory filters p = true ∧
          matchTags filters p = true) ∧
      (∀ p, queryMatches q p = true ↔
        ((∃ u t, lcList p.title = u ++ lcList q ++ t) ∨
          (∃ d, p.description = some d ∧ d ≠ "" ∧
            ∃ u t, lcList d = u ++ lcList q ++ t) ∨
          (∃ u t, lcList p.content = u ++ lcList q ++ t) ∨
          (∃ tag ∈ p.tags, ∃ u t, lcList tag = u ++ lcList q ++ t) ∨
          (∃ u t, lcList p.category = u ++ lcList q ++ t))) ∧
      (∀ p t₂, includesCI t₂ q = true →
        p.tags.any (fun tag => includesCI tag q) = true →
        calculateRelevanceScore { p with tags := p.tags ++ [t₂] } q =
          calculateRelevanceScore p q) := by
  have hchain : (((storeValues st.prompts).filter (queryMatches q)).filter
        (matchCategory filters)).filter (matchTags filters) =
      (storeValues st.prompts).filter
        (fun p => queryMatches q p && matchCategory filters p &&
          matchTags filters p) := by
    rw [List.filter_filter, List.filter_filter]
    apply List.filter_congr
    intro a _
    cases queryMatches q a <;> cases matchCategory filters a <;>
      cases matchTags filters a <;> rfl
  refine ⟨isort (searchLE q)
      ((((storeValues st.prompts).filter (queryMatches q)).filter
        (matchCategory filters)).filter (matchTags filters)), ?_, ?_, ?_, rfl, ?_,
      queryMatches_iff q, ?_⟩
  · rw [hchain] at *
    exact (isort_perm _ _).symm
  · exact (sorted_isort (searchLE q) (searchLE_total q) (searchLE_trans q) _).imp
      (fun h => (searchLE_iff q _ _).1 h)
  · show (isort (searchLE q) _).length = _
    rw [(isort_perm _ _).length_eq, hchain]
  · intro p hp
    have h1 : p ∈ isort (searchLE q)
        ((((storeValues st.prompts).filter (queryMatches q)).filter
          (matchCategory filters)).filter (matchTags filters)) :=
      List.mem_of_mem_drop (List.mem_of_mem_take hp)
    have h2 := (isort_perm (searchLE q) _).mem_iff.1 h1
    rw [hchain] at h2
    rcases List.mem_filter.1 h2 with ⟨-, hm⟩
    simp only [Bool.and_eq_true] at hm
    exact ⟨hm.1.1, hm.1.2, hm.2⟩
  · intro p t₂ ht₂ hany
    unfold calculateRelevanceScore
    have h1 : ({ p with tags := p.tags ++ [t₂] } : Prompt).tags.any
        (fun tag => includesCI tag q) = true := by
      simp only [List.any_append, List.any_cons, List.any_nil, Bool.or_eq_true]
      exact Or.inr (by simp [ht₂])
    simp only [h1, hany]

/-- Store for the C5 ranking example: equal usage, one title match and one
tag-only match for the query `"javascript"`. -/
def c5store : ServiceState :=
  { prompts := [("i2", sampleP "i2" "Other" "c" "x" ["javascript"] 2),
                ("i1", sampleP "i1" "JavaScript Tutorial" "c" "x" ["t"] 2)],
    persisted := [] }

/-- Empty search filters. -/
def c5filters : SearchFilters :=
  { tags := none, category := none, title := none, limit := none, offset := none }

/-- Witness for C5: `search("javascript")` ranks the title-matching record
(score 10) above the tag-only match (score 5) at equal usage, even though the
tag-only record was inserted first. -/
theorem C5_searchPrompts_witness :
    (searchPrompts c5store "javascript" c5filters).items.map Prompt.id = ["i1", "i2"] ∧
    calculateRelevanceScore (sampleP "i1" "JavaScript Tutorial" "c" "x" ["t"] 2)
      "javascript" = 10 ∧
    calculateRelevanceScore (sampleP "i2" "Other" "c" "x" ["javascript"] 2)
      "javascript" = 5 ∧
    (∀ p ∈ (searchPrompts c5store "javascript" c5filters).items,
      queryMatches "javascript" p = true ∧ matchCategory c5filters p = true ∧
        matchTags c5filters p = true) := by
  refine ⟨by decide, by decide, by decide, ?_⟩
  obtain ⟨-, -, -, -, -, hmem, -⟩ := C5_searchPrompts c5store "javascript" c5filters
  exact hmem

/-! ## Claim C6 -/

theorem isStrField_iff (v : YamlValue) (k : String) :
    isStrField v k = true ↔ ∃ s, yGet v k = some (.str s) := by
  unfold isStrField
  cases hy : yGet v k with
  | none => simp
  | some w => cases w <;> simp

theorem isArrField_iff (v : YamlValue) (k : String) :
    isArrField v k = true ↔ ∃ xs, yGet v k = some (.arr xs) := by
  unfold isArrField
  cases hy : yGet v k with
  | none => simp
  | some w => cases w <;> simp

theorem isObjField_iff (v : YamlValue) (k : String) :
    isObjField v k = true ↔
      ∃ m, yGet v k = some m ∧ m ≠ .null ∧ isObjectLike m = true := by
  unfold isObjField
  cases hy : yGet v k with
  | none => simp
  | some w => cases w <;> simp [isObjectLike]

theorem isObjectLike_of_yGet (v : YamlValue) (k : String) (w : YamlValue)
    (h : yGet v k = some w) : isObjectLike v = true := by
  cases v <;> first | rfl | simp [yGet] at h

/-- `isValidPrompt` holds exactly when the record has a string `id`, `title`,
`content`, an array `tags`, a string `category`, and a non-null object
`metadata` (a record failing any of these is not an object carrying them). -/
theorem isValidPrompt_iff (v : YamlValue) :
    isValidPrompt v = true ↔
      ((∃ s, yGet v "id" = some (.str s)) ∧
        (∃ s, yGet v "title" = some (.str s)) ∧
        (∃ s, yGet v "content" = some (.str s)) ∧
        (∃ xs, yGet v "tags" = some (.arr xs)) ∧
        (∃ s, yGet v "category" = some (.str s)) ∧
        (∃ m, yGet v "metadata" = some m ∧ m ≠ .null ∧ isObjectLike m = true)) := by
  unfold isValidPrompt
  simp only [Bool.and_eq_true, isStrField_iff, isArrField_iff, isObjField_iff]
  constructor
  · rintro ⟨⟨⟨⟨⟨⟨-, h1⟩, h2⟩, h3⟩, h4⟩, h5⟩, h6⟩
    exact ⟨h1, h2, h3, h4, h5, h6⟩
  · rintro ⟨⟨s, hs⟩, h2, h3, h4, h5, h6⟩
    exact ⟨⟨⟨⟨⟨⟨isObjectLike_of_yGet v "id" _ hs, ⟨s, hs⟩⟩, h2⟩, h3⟩, h4⟩, h5⟩, h6⟩

/-- **C6**: when the backing document cannot be parsed at all, `load` fails
with a `StorageError`; when it parses, `load` succeeds and keeps a record
exactly when it has a string `id`, `title` and `content`, an array `tags`, a
string `category`, and a non-null object `metadata` — every other record is
dropped without failing the load. -/
theorem C6_load_validation (parseResult : Except String YamlValue) :
    ((∃ e, parseResult = .error e) → ∃ m, loadDoc parseResult = .error m) ∧
    (∀ v, parseResult = .ok v → ∃ out, loadDoc parseResult = .ok out) ∧
    (∀ fields, parseResult = .ok (.obj fields) →
      loadDoc parseResult = .ok (fields.filter (fun kv => isValidPrompt kv.2)) ∧
      ∀ k v, (k, v) ∈ fields →
        ((k, v) ∈ fields.filter (fun kv => isValidPrompt kv.2) ↔
          ((∃ s, yGet v "id" = some (.str s)) ∧
            (∃ s, yGet v "title" = some (.str s)) ∧
            (∃ s, yGet v "content" = some (.str s)) ∧
            (∃ xs, yGet v "tags" = some (.arr xs)) ∧
            (∃ s, yGet v "category" = some (.str s)) ∧
            (∃ m, yGet v "metadata" = some m ∧ m ≠ .null ∧
              isObjectLike m = true)))) := by
  refine ⟨?_, ?_, ?_⟩
  · rintro ⟨e, rfl⟩
    exact ⟨"Failed to load prompts: " ++ e, rfl⟩
  · rintro v rfl
    exact ⟨_, rfl⟩
  · rintro fields rfl
    refine ⟨rfl, ?_⟩
    intro k v hkv
    rw [← isValidPrompt_iff]
    constructor
    · intro hmem
      exact (List.mem_filter.1 hmem).2
    · intro hvalid
      exact List.mem_filter.2 ⟨hkv, hvalid⟩

/-- Witness for C6: a parse failure yields a `StorageError`; a document with
one well-formed record and one junk record loads successfully, keeping exactly
the well-formed record. -/
theorem C6_load_validation_witness :
    (∃ m, loadDoc (.error "unexpected token") = .error m) ∧
    loadDoc (.ok (.obj
        [("good", .obj [("id", .str "a"), ("title", .str "t"),
                        ("content", .str "c"), ("tags", .arr []),
                        ("category", .str "k"), ("metadata", .obj [])]),
         ("bad", .str "junk")])) =
      .ok [("good", .obj [("id", .str "a"), ("title", .str "t"),
                          ("content", .str "c"), ("tags", .arr []),
                          ("category", .str "k"), ("metadata", .obj [])])] := by
  constructor
  · exact (C6_load_validation (.error "unexpected token")).1 ⟨"unexpected token", rfl⟩
  · exact ((C6_load_validation (.ok (.obj
        [("good", .obj [("id", .str "a"), ("title", .str "t"),
                        ("content", .str "c"), ("tags", .arr []),
                        ("category", .str "k"), ("metadata", .obj [])]),
         ("bad", .str "junk")]))).2.2 _ rfl).1.trans rfl

/-! ## Claim C7 -/

theorem optMapList_strOfYaml_map (xs : List String) :
    optMapList strOfYaml (xs.map YamlValue.str) = some xs := by
  induction xs with
  | nil => rfl
  | cons x xs ih => simp [optMapList, ih, strOfYaml]

/-- Every serialized record passes the load-time validation. -/
theorem isValidPrompt_promptToYaml (p : Prompt) :
    isValidPrompt (promptToYaml p) = true := by
  cases hd : p.description <;> cases hv : p.«variables» <;>
    simp [promptToYaml, metadataToYaml, yGet, isValidPrompt, isStrField, isArrField,
      isObjField, isObjectLike, List.find?_cons, hd, hv]

theorem variableOfYaml_variableToYaml (v : PromptVariable) :
    variableOfYaml (variableToYaml v) = some v := by
  obtain ⟨name, descr, ty, req, dv⟩ := v
  rcases dv with - | dv
  · cases ty <;>
      simp [variableToYaml, variableOfYaml, yGet, List.find?_cons]
  · cases ty <;> cases dv <;>
      simp [variableToYaml, variableOfYaml, yGet, List.find?_cons, optMapList_strOfYaml_map]

theorem metadataOfYaml_metadataToYaml (m : PromptMetadata) :
    metadataOfYaml (metadataToYaml m) = some m := by
  obtain ⟨c, u, ver, author, usage⟩ := m
  have hnn : ∀ us : Nat, ¬((us : Int) < 0) := by
    intro us
    omega
  rcases author with - | a <;> rcases usage with - | us <;>
    simp [metadataToYaml, metadataOfYaml, yGet, List.find?_cons, hnn]

theorem optMapList_variableOfYaml_map (vs : List PromptVariable) :
    optMapList variableOfYaml (vs.map variableToYaml) = some vs := by
  induction vs with
  | nil => rfl
  | cons v vs ih => simp [optMapList, ih, variableOfYaml_variableToYaml]

/-- Decoding inverts the serialization of a record. -/
theorem promptOfYaml_promptToYaml (p : Prompt) :
    promptOfYaml (promptToYaml p) = some p := by
  obtain ⟨id, title, content, descr, tags, cat, vars, meta⟩ := p
  rcases descr with - | d <;> rcases vars with - | vs <;>
    simp [promptToYaml, promptOfYaml, yGet, List.find?_cons, optMapList_strOfYaml_map,
      optMapList_variableOfYaml_map, metadataOfYaml_metadataToYaml]

/-- **C7**: round-trip — for every mapping `X` of well-formed records,
`save(X)` followed by `load()` returns exactly the serialized form of `X`
(every record passes validation), and decoding that serialized collection
recovers `X` itself. -/
theorem C7_save_load_roundtrip (fs : FileState) (X : Store) (ts : String)
    (pruneOk : Bool) :
    ∃ doc, (saveF fs X ts pruneOk).dataFile = some doc ∧
      loadDoc (.ok doc) = .ok (X.map (fun kv => (kv.1, promptToYaml kv.2))) ∧
      (loadF (saveF fs X ts pruneOk) ts).1 =
        X.map (fun kv => (kv.1, promptToYaml kv.2)) ∧
      (X.map (fun kv => (kv.1, promptToYaml kv.2))).map
          (fun kv => (kv.1, promptOfYaml kv.2)) =
        X.map (fun kv => (kv.1, some kv.2)) := by
  have hvalid : validateAndTransformData (storeToYaml X) =
      X.map (fun kv => (kv.1, promptToYaml kv.2)) := by
    unfold validateAndTransformData storeToYaml
    apply List.filter_eq_self.2
    intro kv hkv
    rcases List.mem_map.1 hkv with ⟨orig, -, rfl⟩
    exact isValidPrompt_promptToYaml orig.2
  have hdoc : (saveF fs X ts pruneOk).dataFile = some (storeToYaml X) := rfl
  have hif : (if isFalsy (storeToYaml X) = true then YamlValue.obj []
      else storeToYaml X) = storeToYaml X := by
    rw [show isFalsy (storeToYaml X) = false from rfl]
    simp
  refine ⟨storeToYaml X, hdoc, ?_, ?_, ?_⟩
  · show Except.ok (validateAndTransformData
        (if isFalsy (storeToYaml X) = true then YamlValue.obj []
          else storeToYaml X)) = _
    rw [hif, hvalid]
  · show validateAndTransformData
        (if isFalsy (storeToYaml X) = true then YamlValue.obj []
          else storeToYaml X) = _
    rw [hif, hvalid]
  · rw [List.map_map]
    apply List.map_congr_left
    intro kv _
    simp [promptOfYaml_promptToYaml]

/-! ## Claim C8: order lemmas for filename sorting -/

theorem charListLt_irrefl : ∀ a : List Char, charListLt a a = false
  | [] => rfl
  | x :: xs => by
    simp only [charListLt, lt_irrefl, if_false]
    exact charListLt_irrefl xs

theorem charListLe_iff : ∀ a b : List Char,
    charListLe a b = true ↔ (charListLt a b = true ∨ a = b)
  | [], [] => by simp [charListLe, charListLt]
  | [], _ :: _ => by simp [charListLe, charListLt]
  | _ :: _, [] => by simp [charListLe, charListLt]
  | x :: xs, y :: ys => by
    simp only [charListLe, charListLt, List.cons.injEq]
    rcases lt_trichotomy x y with hxy | hxy | hxy
    · simp [hxy, asymm hxy]
    · subst hxy
      simp [lt_irrefl, charListLe_iff xs ys]
    · have hne : x ≠ y := ne_of_gt hxy
      simp [asymm hxy, hxy, hne]

theorem charListLt_trans : ∀ a b c : List Char, charListLt a b = true →
    charListLt b c = true → charListLt a c = true
  | [], [], _, h1, _ => by simp [charListLt] at h1
  | [], _ :: _, [], _, h2 => by simp [charListLt] at h2
  | [], _ :: _, _ :: _, _, _ => rfl
  | _ :: _, [], _, h1, _ => by simp [charListLt] at h1
  | _ :: _, _ :: _, [], _, h2 => by simp [charListLt] at h2
  | a :: as, b :: bs, c :: cs, h1, h2 => by
    simp only [charListLt] at h1 h2 ⊢
    rcases lt_trichotomy a b with hab | hab | hab
    · rcases lt_trichotomy b c with hbc | hbc | hbc
      · rw [if_pos (hab.trans hbc)]
      · subst hbc
        rw [if_pos hab]
      · rw [if_neg (asymm hbc), if_pos hbc] at h2
        simp at h2
    · subst hab
      rcases lt_trichotomy a c with hac | hac | hac
      · rw [if_pos hac]
      · subst hac
        rw [if_neg (lt_irrefl a), if_neg (lt_irrefl a)] at h1 h2 ⊢
        exact charListLt_trans as bs cs h1 h2
      · rw [if_neg (asymm hac), if_pos hac] at h2
        simp at h2
    · rw [if_neg (asymm hab), if_pos hab] at h1
      simp at h1

theorem charListLt_connex : ∀ a b : List Char, charListLt a b = false →
    charListLt b a = false → a = b
  | [], [], _, _ => rfl
  | [], _ :: _, h1, _ => by simp [charListLt] at h1
  | _ :: _, [], _, h2 => by simp [charListLt] at h2
  | a :: as, b :: bs, h1, h2 => by
    simp only [charListLt] at h1 h2
    rcases lt_trichotomy a b with hab | hab | hab
    · rw [if_pos hab] at h1
      simp at h1
    · subst hab
      rw [if_neg (lt_irrefl a), if_neg (lt_irrefl a)] at h1 h2
      rw [charListLt_connex as bs h1 h2]
    · rw [if_pos hab] at h2
      simp at h2

theorem strLeB_total (a b : String) : strLeB a b = false → strLeB b a = true := by
  intro h
  unfold strLeB at h ⊢
  rw [charListLe_iff]
  by_cases hlt : charListLt b.data a.data = true
  · exact Or.inl hlt
  · right
    have h1 : charListLt a.data b.data = false := by
      rcases Bool.eq_false_or_eq_true (charListLt a.data b.data) with ht | hf
      · exact absurd ((charListLe_iff a.data b.data).2 (Or.inl ht)) (by simp [h])
      · exact hf
    have h2 : charListLt b.data a.data = false := by simpa using hlt
    exact charListLt_connex b.data a.data h2 h1

theorem strLeB_trans (a b c : String) : strLeB a b = true → strLeB b c = true →
    strLeB a c = true := by
  unfold strLeB
  rw [charListLe_iff, charListLe_iff, charListLe_iff]
  rintro (h1 | h1) (h2 | h2)
  · exact Or.inl (charListLt_trans _ _ _ h1 h2)
  · rw [← h2]
    exact Or.inl h1
  · rw [h1]
    exact Or.inl h2
  · rw [h1, h2]
    exact Or.inr rfl

theorem strLeB_ne_lt (a b : String) (hle : strLeB a b = true) (hne : a ≠ b) :
    strLtB a b = true := by
  unfold strLeB at hle
  unfold strLtB
  rcases (charListLe_iff a.data b.data).1 hle with h | h
  · exact h
  · exact absurd (String.ext h) hne

theorem nodup_subset_length {α : Type} [DecidableEq α] :
    ∀ l : List α, ∀ l' : List α, l.Nodup → l ⊆ l' → l.length ≤ l'.length := by
  intro l
  induction l with
  | nil => intro l' _ _; simp
  | cons a as ih =>
    intro l' hnd hsub
    rcases List.pairwise_cons.1 hnd with ⟨ha, hnd'⟩
    have hmem : a ∈ l' := hsub (List.mem_cons_self a as)
    have hsub' : as ⊆ l'.erase a := by
      intro x hx
      have hx' : x ∈ l' := hsub (List.mem_cons_of_mem a hx)
      exact (List.mem_erase_of_ne (fun he => ha x hx he.symm)).2 hx'
    have h1 := ih (l'.erase a) hnd' hsub'
    have h2 : (l'.erase a).length = l'.length - 1 := List.length_erase_of_mem hmem
    have h3 : 0 < l'.length := List.length_pos_of_mem hmem
    simp only [List.length_cons]
    omega

/-- Characterization of `cleanupOldBackups` on a duplicate-free directory
listing: there is a strictly descending ordering `d` of the matching backup
filenames, and after cleanup a matching filename remains exactly when it is
among the first ten of `d`; at most ten matching filenames remain. -/
theorem cleanup_spec (files : List String) (hnd : files.Nodup) :
    ∃ d : List String,
      (files.filter isBackupFile).Perm d ∧
      d.Pairwise (fun a b => strLtB b a = true) ∧
      (∀ f, isBackupFile f = true →
        (f ∈ cleanupOldBackups files ↔ f ∈ d.take 10)) ∧
      ((cleanupOldBackups files).filter isBackupFile).length ≤ 10 := by
  have hndm : (files.filter isBackupFile).Nodup := hnd.filter _
  refine ⟨(isort strLeB (files.filter isBackupFile)).reverse, ?_, ?_, ?_, ?_⟩
  case _ =>
    exact ((List.reverse_perm _).trans (isort_perm strLeB _)).symm
  case _ =>
    have hsort := sorted_isort strLeB strLeB_total strLeB_trans
      (files.filter isBackupFile)
    have hrev : (isort strLeB (files.filter isBackupFile)).reverse.Pairwise
        (fun a b => strLeB b a = true) := List.pairwise_reverse.mpr hsort
    have hndd : (isort strLeB (files.filter isBackupFile)).reverse.Nodup :=
      (((List.reverse_perm _).trans (isort_perm strLeB _)).symm).nodup hndm
    exact (hrev.and hndd).imp
      (fun h => strLeB_ne_lt _ _ h.1 (fun e => h.2 e.symm))
  all_goals
    have hperm : (files.filter isBackupFile).Perm
        (isort strLeB (files.filter isBackupFile)).reverse :=
      ((List.reverse_perm _).trans (isort_perm strLeB _)).symm
    have hndd : (isort strLeB (files.filter isBackupFile)).reverse.Nodup :=
      hperm.nodup hndm
    have hcleanup : cleanupOldBackups files =
        if (isort strLeB (files.filter isBackupFile)).reverse.length > 10 then
          files.filter (fun f =>
            !(((isort strLeB (files.filter isBackupFile)).reverse.drop 10).contains f))
        else files := rfl
    have hmemiff : ∀ f, isBackupFile f = true →
        (f ∈ cleanupOldBackups files ↔
          f ∈ (isort strLeB (files.filter isBackupFile)).reverse.take 10) := by
      intro f hf
      rw [hcleanup]
      by_cases h10 : (isort strLeB (files.filter isBackupFile)).reverse.length > 10
      · rw [if_pos h10]
        constructor
        · intro hmem
          rcases List.mem_filter.1 hmem with ⟨hfiles, hnotdel⟩
          have hms : f ∈ files.filter isBackupFile := List.mem_filter.2 ⟨hfiles, hf⟩
          have hd : f ∈ (isort strLeB (files.filter isBackupFile)).reverse :=
            hperm.mem_iff.1 hms
          rw [← List.take_append_drop 10
            (isort strLeB (files.filter isBackupFile)).reverse] at hd
          rcases List.mem_append.1 hd with h | h
          · exact h
          · exact absurd h (by simpa using hnotdel)
        · intro htake
          have hd : f ∈ (isort strLeB (files.filter isBackupFile)).reverse :=
            List.mem_of_mem_take htake
          have hms : f ∈ files.filter isBackupFile := hperm.mem_iff.2 hd
          have hfiles : f ∈ files := (List.mem_filter.1 hms).1
          have hdisj := List.disjoint_take_drop hndd (le_refl 10)
          refine List.mem_filter.2 ⟨hfiles, ?_⟩
          simp only [Bool.not_eq_true']
          rw [List.contains_eq_any_beq]
          rw [List.any_eq_false]
          intro x hx hbeq
          have : f = x := by simpa using hbeq
          exact hdisj htake (this ▸ hx)
      · rw [if_neg h10]
        push_neg at h10
        rw [List.take_of_length_le h10]
        constructor
        · intro hmem
          exact hperm.mem_iff.1 (List.mem_filter.2 ⟨hmem, hf⟩)
        · intro hd
          exact (List.mem_filter.1 (hperm.mem_iff.2 hd)).1
    refine ?_
  case _ => exact hmemiff
  case _ =>
    have hsubset : (cleanupOldBackups files).filter isBackupFile ⊆
        (isort strLeB (files.filter isBackupFile)).reverse.take 10 := by
      intro x hx
      rcases List.mem_filter.1 hx with ⟨hmem, hxf⟩
      exact (hmemiff x hxf).1 hmem
    have hndc : ((cleanupOldBackups files).filter isBackupFile).Nodup := by
      rw [hcleanup]
      by_cases h10 : (isort strLeB (files.filter isBackupFile)).reverse.length > 10
      · rw [if_pos h10]
        exact (hnd.filter _).filter _
      · rw [if_neg h10]
        exact hnd.filter _
    calc ((cleanupOldBackups files).filter isBackupFile).length
        ≤ ((isort strLeB (files.filter isBackupFile)).reverse.take 10).length :=
          nodup_subset_length _ _ hndc hsubset
      _ ≤ 10 := List.length_take_le _ _

theorem backupF_some (fs : FileState) (ts : String) (pruneOk : Bool) (doc : YamlValue)
    (hdf : fs.dataFile = some doc) :
    backupF fs ts pruneOk =
      { fs with backups :=
          if pruneOk then
            cleanupOldBackups (addBackupFile fs.backups (backupFileName ts))
          else addBackupFile fs.backups (backupFileName ts) } := by
  unfold backupF
  rw [hdf]

theorem addBackupFile_nodup (dir : List String) (name : String) (hnd : dir.Nodup) :
    (addBackupFile dir name).Nodup := by
  unfold addBackupFile
  by_cases h : dir.contains name = true
  · rw [if_pos h]
    exact hnd
  · rw [if_neg h]
    rw [List.nodup_append]
    refine ⟨hnd, by simp, ?_⟩
    intro x hx hx'
    rcases List.mem_singleton.1 hx' with rfl
    exact h (by simpa using hx)

theorem mem_addBackupFile_self (dir : List String) (name : String) :
    name ∈ addBackupFile dir name := by
  unfold addBackupFile
  by_cases h : dir.contains name = true
  · rw [if_pos h]
    simpa using h
  · rw [if_neg h]
    simp

/-- A sequence of `save` calls with successive timestamps. -/
def saveSeq (fs : FileState) (prompts : Store) : List String → FileState
  | [] => fs
  | ts :: rest => saveSeq (saveF fs prompts ts true) prompts rest

/-- **C8**: after every completed `backup()` call (with a backing file
present and pruning succeeding), at most the 10 most recent backup files by
filename sort order remain in the backup directory — a matching filename
survives exactly when it is among the first ten of the strictly descending
ordering of the matching filenames — and a failure during pruning does not
fail the enclosing backup/save; after 12 sequential saves over an existing
backing file, exactly the 10 most recent backup files remain. -/
theorem C8_backup_retention :
    (∀ fs ts doc, fs.backups.Nodup → fs.dataFile = some doc →
      ∃ d : List String,
        ((addBackupFile fs.backups (backupFileName ts)).filter isBackupFile).Perm d ∧
        d.Pairwise (fun a b => strLtB b a = true) ∧
        (∀ f, isBackupFile f = true →
          (f ∈ (backupF fs ts true).backups ↔ f ∈ d.take 10)) ∧
        ((backupF fs ts true).backups.filter isBackupFile).length ≤ 10) ∧
    (∀ fs ts doc X, fs.dataFile = some doc →
      backupFileName ts ∈ (backupF fs ts false).backups ∧
      (saveF fs X ts false).dataFile = some (storeToYaml X)) ∧
    (saveSeq { dataFile := some (.obj []), backups := [] } []
        ["t01", "t02", "t03", "t04", "t05", "t06",
         "t07", "t08", "t09", "t10", "t11", "t12"]).backups =
      ["prompts-backup-t03.yaml", "prompts-backup-t04.yaml",
       "prompts-backup-t05.yaml", "prompts-backup-t06.yaml",
       "prompts-backup-t07.yaml", "prompts-backup-t08.yaml",
       "prompts-backup-t09.yaml", "prompts-backup-t10.yaml",
       "prompts-backup-t11.yaml", "prompts-backup-t12.yaml"] ∧
    (saveSeq { dataFile := some (.obj []), backups := [] } []
        ["t01", "t02", "t03", "t04", "t05", "t06",
         "t07", "t08", "t09", "t10", "t11", "t12"]).backups.length = 10 := by
  refine ⟨?_, ?_, by decide, by decide⟩
  · intro fs ts doc hnd hdf
    rw [backupF_some fs ts true doc hdf]
    obtain ⟨d, h1, h2, h3, h4⟩ := cleanup_spec (addBackupFile fs.backups (backupFileName ts))
      (addBackupFile_nodup fs.backups (backupFileName ts) hnd)
    exact ⟨d, h1, h2, fun f hf => by simpa using h3 f hf, by simpa using h4⟩
  · intro fs ts doc X hdf
    constructor
    · rw [backupF_some fs ts false doc hdf]
      simpa using mem_addBackupFile_self fs.backups (backupFileName ts)
    · rfl

/-- Witness for C8: applying the retention theorem to a concrete state with
one old backup, and checking the pruning-failure case concretely. -/
theorem C8_backup_retention_witness :
    (∃ d : List String,
      ((addBackupFile ["prompts-backup-t01.yaml"] (backupFileName "t02")).filter
          isBackupFile).Perm d ∧
      d.Pairwise (fun a b => strLtB b a = true) ∧
      (∀ f, isBackupFile f = true →
        (f ∈ (backupF
            { dataFile := some (.obj []), backups := ["prompts-backup-t01.yaml"] }
            "t02" true).backups ↔
          f ∈ d.take 10)) ∧
      ((backupF
          { dataFile := some (.obj []), backups := ["prompts-backup-t01.yaml"] }
          "t02" true).backups.filter
        isBackupFile).length ≤ 10) ∧
    backupFileName "t02" ∈ (backupF
      { dataFile := some (.obj []), backups := ["prompts-backup-t01.yaml"] }
      "t02" false).backups := by
  constructor
  · exact C8_backup_retention.1
      { dataFile := some (.obj []), backups := ["prompts-backup-t01.yaml"] }
      "t02" (.obj []) (by decide) rfl
  · exact (C8_backup_retention.2.1
      { dataFile := some (.obj []), backups := ["prompts-backup-t01.yaml"] }
      "t02" (.obj []) [] rfl).1

/-! ## Claim C9 -/

/-- Two character lists are digit-aligned when they agree pointwise except
possibly at positions where both hold decimal digits (two wall-clock ISO
timestamps of the same fixed format are digit-aligned). -/
def digitAligned : List Char → List Char → Bool
  | [], [] => true
  | a :: as, b :: bs => (a == b || (a.isDigit && b.isDigit)) && digitAligned as bs
  | _, _ => false

theorem sanChar_digit (c : Char) (h : c.isDigit = true) : sanChar c = c := by
  unfold sanChar
  have h1 : c ≠ ':' := by
    intro e
    subst e
    simp [Char.isDigit] at h
  have h2 : c ≠ '.' := by
    intro e
    subst e
    simp [Char.isDigit] at h
  rw [if_neg (by simp [h1, h2])]

theorem digitAligned_length : ∀ l1 l2 : List Char,
    digitAligned l1 l2 = true → l1.length = l2.length
  | [], [], _ => rfl
  | [], _ :: _, h => by simp [digitAligned] at h
  | _ :: _, [], h => by simp [digitAligned] at h
  | a :: as, b :: bs, h => by
    simp only [digitAligned, Bool.and_eq_true] at h
    simp [digitAligned_length as bs h.2]

theorem charListLt_map_sanChar : ∀ l1 l2 : List Char,
    digitAligned l1 l2 = true →
    charListLt (l1.map sanChar) (l2.map sanChar) = charListLt l1 l2
  | [], [], _ => rfl
  | [], _ :: _, h => by simp [digitAligned] at h
  | _ :: _, [], h => by simp [digitAligned] at h
  | a :: as, b :: bs, h => by
    simp only [digitAligned, Bool.and_eq_true, Bool.or_eq_true, Bool.and_eq_true,
      beq_iff_eq] at h
    rcases h with ⟨hab, hrest⟩
    rcases hab with hab | ⟨hda, hdb⟩
    · subst hab
      simp only [List.map_cons, charListLt, lt_irrefl, if_false]
      exact charListLt_map_sanChar as bs hrest
    · simp only [List.map_cons, charListLt, sanChar_digit a hda, sanChar_digit b hdb]
      by_cases h1 : a < b
      · rw [if_pos h1, if_pos h1]
      · rw [if_neg h1, if_neg h1]
        by_cases h2 : b < a
        · rw [if_pos h2, if_pos h2]
        · rw [if_neg h2, if_neg h2]
          exact charListLt_map_sanChar as bs hrest

theorem charListLt_append_left : ∀ p a b : List Char,
    charListLt a b = true → charListLt (p ++ a) (p ++ b) = true
  | [], _, _, h => h
  | c :: p, a, b, h => by
    simp only [List.cons_append, charListLt, lt_irrefl, if_false]
    exact charListLt_append_left p a b h

theorem charListLt_append_right : ∀ a b s : List Char,
    charListLt a b = true → a.length = b.length →
    charListLt (a ++ s) (b ++ s) = true
  | [], [], _, h, _ => by simp [charListLt] at h
  | [], _ :: _, _, _, hl => by simp at hl
  | _ :: _, [], _, _, hl => by simp at hl
  | a :: as, b :: bs, s, h, hl => by
    simp only [charListLt] at h
    simp only [List.cons_append, charListLt]
    by_cases h1 : a < b
    · rw [if_pos h1]
    · rw [if_neg h1] at h ⊢
      by_cases h2 : b < a
      · rw [if_pos h2] at h
        simp at h
      · rw [if_neg h2] at h ⊢
        exact charListLt_append_right as bs s h (by simpa using hl)

/-- **C9 (counterexample to the claim as stated)**: backup filenames embed
`new Date().toISOString()`, which has millisecond resolution and is not
strictly monotone per call — two successive `backup()` calls observing the
same clock reading produce the same filename, so after two calls a single
backup file exists; the claim's per-call strict monotonicity and
collision-freedom do not hold on the code. -/
theorem C9_counterexample :
    backupFileName "2024-01-01T00:00:00.000Z" =
      backupFileName "2024-01-01T00:00:00.000Z" ∧
    (backupF (backupF { dataFile := some (.obj []), backups := [] }
        "2024-01-01T00:00:00.000Z" true) "2024-01-01T00:00:00.000Z" true).backups =
      ["prompts-backup-2024-01-01T00-00-00-000Z.yaml"] :=
  ⟨rfl, by decide⟩

/-- **C9 (amended)**: provided the ISO timestamp strings observed by two
successive `backup()` calls are strictly increasing (same fixed format:
digit-aligned), the embedded backup filenames are strictly increasing in
filename sort order and in particular distinct; collision-freedom holds only
under this clock assumption, not unconditionally. -/
theorem C9_backup_filename_monotone (ts1 ts2 : String)
    (halign : digitAligned ts1.data ts2.data = true)
    (hlt : strLtB ts1 ts2 = true) :
    strLtB (backupFileName ts1) (backupFileName ts2) = true ∧
    backupFileName ts1 ≠ backupFileName ts2 := by
  have hmap : charListLt (ts1.data.map sanChar) (ts2.data.map sanChar) = true := by
    rw [charListLt_map_sanChar ts1.data ts2.data halign]
    exact hlt
  have hlen : (ts1.data.map sanChar).length = (ts2.data.map sanChar).length := by
    simp [digitAligned_length ts1.data ts2.data halign]
  have hdata : ∀ ts : String, (backupFileName ts).data =
      "prompts-backup-".data ++ (ts.data.map sanChar ++ ".yaml".data) := by
    intro ts
    show (("prompts-backup-" ++ sanTs ts ++ ".yaml").data) = _
    rw [String.data_append, String.data_append]
    simp [sanTs, List.asString]
  have hmain : strLtB (backupFileName ts1) (backupFileName ts2) = true := by
    unfold strLtB
    rw [hdata ts1, hdata ts2]
    apply charListLt_append_left
    exact charListLt_append_right _ _ _ hmap hlen
  refine ⟨hmain, ?_⟩
  intro heq
  rw [heq] at hmain
  unfold strLtB at hmain
  rw [charListLt_irrefl] at hmain
  exact absurd hmain (by simp)

/-- Witness for the amended C9: with strictly increasing millisecond
timestamps the filenames strictly increase and differ. -/
theorem C9_backup_filename_monotone_witness :
    strLtB (backupFileName "2024-01-01T00:00:00.000Z")
      (backupFileName "2024-01-01T00:00:00.001Z") = true ∧
    backupFileName "2024-01-01T00:00:00.000Z" ≠
      backupFileName "2024-01-01T00:00:00.001Z" :=
  C9_backup_filename_monotone "2024-01-01T00:00:00.000Z" "2024-01-01T00:00:00.001Z"
    (by decide) (by decide)

end PromptLib